import Mathlib

/-!
# slog: leveled logging with a rotating file sink

A shallow embedding of `slog.go`, `formater.go` and `printer.go`, and the
properties of the dispatcher, the formatter and the background writer.
-/

namespace Slog

/-! ## Go strings -/

/-- A Go string is a byte sequence; every element of the list stands for one byte. -/
abbrev GoString := List Char

/-- Go index expression `s[i]`: a run-time panic (`none`) unless `0 ≤ i < len(s)`. -/
def goIndex {α : Type} (s : List α) (i : Int) : Option α :=
  if 0 ≤ i ∧ i < (s.length : Int) then s.get? i.toNat else none

/-- Go slice expression `s[:k]`: a run-time panic (`none`) unless `0 ≤ k ≤ len(s)`. -/
def goSliceTo {α : Type} (s : List α) (k : Int) : Option (List α) :=
  if 0 ≤ k ∧ k ≤ (s.length : Int) then some (s.take k.toNat) else none

/-- The decimal rendering `strconv.Itoa` / `%d` of an `int`. -/
def Itoa (i : Int) : GoString :=
  if i < 0 then '-' :: Nat.toDigits 10 i.natAbs else Nat.toDigits 10 i.natAbs

/-! ## slog.go: levels -/

/-- The source's `type lev int`. -/
abbrev lev := Int

def LevDEBUG : lev := 0
def LevVERBOSE : lev := 1
def LevINFO : lev := 2
def LevWARN : lev := 3
def LevERROR : lev := 4
def LevNOTE : lev := 5
def LevFATAL : lev := 6

/-- The method `lev.String`. -/
def levString (this : lev) : GoString :=
  if this = LevDEBUG then "DEBUG".toList
  else if this = LevVERBOSE then "VERBO".toList
  else if this = LevINFO then "INFO".toList
  else if this = LevWARN then "WARN".toList
  else if this = LevERROR then "ERROR".toList
  else if this = LevNOTE then "NOTE".toList
  else "FATAL".toList

/-! ## formater.go -/

/-- The fields of `time.Now()` that `combine` reads. -/
structure Clock where
  month : Nat
  day : Nat
  hour : Nat
  minute : Nat
  second : Nat
  nanosecond : Nat

/-- The result of `runtime.Caller(4)`. -/
structure CallerInfo where
  file : GoString
  line : Int
  ok : Bool

/-- The verb `%0wd` on a non-negative integer: decimal digits, zero-padded on the left. -/
def fmtZeroPad (w : Nat) (n : Nat) : GoString :=
  let d := Nat.toDigits 10 n
  List.replicate (w - d.length) '0' ++ d

/-- The verb `%-5s`: the string, space-padded on the right to width 5. -/
def fmtLeft5 (s : GoString) : GoString :=
  s ++ List.replicate (5 - s.length) ' '

/-- The call `strings.Split(s, "/")`. -/
def splitSlash : GoString → List GoString
  | [] => [[]]
  | c :: cs =>
    if c = '/' then [] :: splitSlash cs
    else
      match splitSlash cs with
      | [] => [[c]]
      | h :: t => (c :: h) :: t

/-- The call `fmt.Sprintln(args...)` on string operands: the operands separated by
single spaces, and a newline appended. -/
def Sprintln (args : List GoString) : GoString :=
  (" ".toList).intercalate args ++ ['\n']

/-- The call-site part of `combine`: the file, abbreviated to its last two path
segments, and the line; `c` is `runtime.Caller(4)`. -/
def callSite (c : CallerInfo) : Option (GoString × Int) :=
  if !c.ok then some ("???".toList, (0 : Int))
  else
    let farr := splitSlash c.file
    let i : Int := farr.length
    if i > 2 then do
      let a ← goIndex farr (i - 2)
      let b ← goIndex farr (i - 1)
      pure (a ++ "/".toList ++ b, c.line)
    else some (c.file, c.line)

/-- The length `ml` that `combine` keeps of the message. -/
def trimLen (msg : GoString) : Option Int :=
  let ml : Int := msg.length
  if ml > 0 then do
    let last ← goIndex msg (ml - 1)
    pure (if last = '\n' then ml - 1 else ml)
  else some ml

/-- The text of a line before the message: `[%02d-%02d %02d:%02d:%02d.%03d][%-5s] `. -/
def linePrefix (t : Clock) (lv : lev) : GoString :=
  "[".toList ++ fmtZeroPad 2 t.month ++ "-".toList ++ fmtZeroPad 2 t.day ++ " ".toList
    ++ fmtZeroPad 2 t.hour ++ ":".toList ++ fmtZeroPad 2 t.minute ++ ":".toList
    ++ fmtZeroPad 2 t.second ++ ".".toList ++ fmtZeroPad 3 (t.nanosecond / 1000000)
    ++ "][".toList ++ fmtLeft5 (levString lv) ++ "] ".toList

/-- The text of a line after the message: ` (%s:%d)` and the terminator. -/
def lineSuffix (fl : GoString × Int) : GoString :=
  " (".toList ++ fl.1 ++ ":".toList ++ Itoa fl.2 ++ ")\r\n".toList

/-- The method `_DefaultFormater.combine`; `t` is `time.Now()` and `c` is
`runtime.Caller(4)`. `none` is a run-time panic of an index or slice expression. -/
def combine (t : Clock) (c : CallerInfo) (lv : lev) (msg : GoString) : Option GoString := do
  let fl ← callSite c
  let ml ← trimLen msg
  let body ← goSliceTo msg ml
  pure (linePrefix t lv ++ body ++ lineSuffix fl)

/-- The method `_DefaultFormater.Format`. -/
def Format (t : Clock) (c : CallerInfo) (lv : lev) (args : List GoString) : Option GoString :=
  let s := Sprintln args
  combine t c lv s

/-- The method `_DefaultFormater.Formatf`; `sprintf` is `fmt.Sprintf`. -/
def Formatf (sprintf : GoString → List GoString → GoString) (t : Clock) (c : CallerInfo)
    (lv : lev) (format : GoString) (args : List GoString) : Option GoString := do
  let last ← goIndex format ((format.length : Int) - 1)
  let format := if last = '\n' then goSliceTo format ((format.length : Int) - 1) else some format
  let format ← format
  let s := sprintf format args
  combine t c lv s

/-! ## slog.go: builder and dispatcher -/

/-- A `Printer` value: the console sink, or a caller-supplied sink named by a number. -/
inductive Printer where
  | console : Printer
  | sink : Nat → Printer
  deriving DecidableEq, Repr

structure levPrinter where
  l : lev
  p : Printer
  deriving DecidableEq, Repr

structure Logger where
  rootLev : lev
  lp : List levPrinter
  deriving DecidableEq, Repr

structure LoggerBuilder where
  log : Logger
  deriving DecidableEq, Repr

/-- The method `LoggerBuilder.AddPrinter`. -/
def LoggerBuilder.AddPrinter (l : LoggerBuilder) (lv : lev) (p : Printer) : LoggerBuilder :=
  let lp := l.log.lp ++ [levPrinter.mk lv p]
  let rootLev := if lv < l.log.rootLev then lv else l.log.rootLev
  LoggerBuilder.mk (Logger.mk rootLev lp)

/-- The function `NewBuilder`; `&LoggerBuilder{}` is the zero value. -/
def NewBuilder (consoleLev : lev) : LoggerBuilder :=
  let l := LoggerBuilder.mk (Logger.mk 0 [])
  l.AddPrinter consoleLev Printer.console

/-- The method `LoggerBuilder.Build`. -/
def LoggerBuilder.Build (l : LoggerBuilder) : Logger := l.log

/-- A call made on a sink. -/
inductive Event where
  | print : Printer → GoString → Event
  | close : Printer → Event
  deriving DecidableEq, Repr

/-- The loop `for _, n := range s.lp` shared by `out` and `outf`. -/
def fanOut (lv : lev) (str : GoString) : List levPrinter → List Event
  | [] => []
  | n :: rest =>
    (if lv ≥ n.l then
      Event.print n.p str :: (if lv = LevFATAL then [Event.close n.p] else [])
    else []) ++ fanOut lv str rest

/-- The method `Logger.out`; the result is the sequence of sink calls, `none` a panic. -/
def Logger.out (s : Logger) (t : Clock) (c : CallerInfo) (lv : lev)
    (args : List GoString) : Option (List Event) :=
  if s.rootLev ≤ lv then do
    let str ← Format t c lv args
    pure (fanOut lv str s.lp)
  else pure []

/-- The method `Logger.outf`. -/
def Logger.outf (s : Logger) (sprintf : GoString → List GoString → GoString) (t : Clock)
    (c : CallerInfo) (lv : lev) (format : GoString) (args : List GoString) :
    Option (List Event) :=
  if s.rootLev ≤ lv then do
    let str ← Formatf sprintf t c lv format args
    pure (fanOut lv str s.lp)
  else pure []

/-- The method `Logger.Close`. -/
def Logger.Close (s : Logger) : List Event :=
  s.lp.map (fun n => Event.close n.p)

/-- The call `runtime.Stack(buf, all)` on a buffer of `n` bytes, where `stack` is the
full text of the trace: the buffer afterwards, and the number of bytes written. -/
def runtimeStack (stack : GoString) (n : Nat) : GoString × Int :=
  (stack.take n ++ List.replicate (n - stack.length) (Char.ofNat 0),
    ((min stack.length n : Nat) : Int))

/-- The loop of `printStack`, with `k` iterations left: the final `n` and `trace`. -/
def stackLoop (stack : GoString) : Nat → Int → GoString → Int × GoString
  | 0, n, trace => (n, trace)
  | k + 1, n, _ =>
    let n := n * 2
    let r := runtimeStack stack n.toNat
    let trace := r.1
    let nbytes := r.2
    if nbytes ≤ (trace.length : Int) then (nbytes, trace)
    else stackLoop stack k n trace

/-- The method `Logger.printStack`; `stack` is the trace the runtime would write. -/
def Logger.printStack (s : Logger) (all : Bool) (stack : GoString) : Option (List Event) := do
  let n : Int := if all then 1000 else 500
  let r := stackLoop stack 5 n []
  let ms ← goSliceTo r.2 r.1
  pure (s.lp.map (fun n => Event.print n.p ms))

/-- The dispatcher `NewBuilder(consoleLev).AddPrinter(..)...AddPrinter(..).Build()`. -/
def assemble (consoleLev : lev) (adds : List (lev × Printer)) : Logger :=
  (adds.foldl (fun b a => b.AddPrinter a.1 a.2) (NewBuilder consoleLev)).Build

/-- The sinks that a sequence of calls hands a line to, with the line, in order. -/
def deliveries : List Event → List (Printer × GoString)
  | [] => []
  | Event.print p s :: rest => (p, s) :: deliveries rest
  | Event.close _ :: rest => deliveries rest

/-- The sinks that a sequence of calls closes, in order. -/
def closes : List Event → List Printer
  | [] => []
  | Event.print _ _ :: rest => closes rest
  | Event.close p :: rest => p :: closes rest

/-! ## printer.go -/

/-- The file system: a map from file name to contents. -/
abbrev FS := GoString → Option GoString

/-- The call `os.Remove(name)`; removing a missing file changes nothing. -/
def osRemove (fs : FS) (name : GoString) : FS :=
  fun x => if x = name then none else fs x

/-- The call `os.Rename(o, n)`; renaming a missing source changes nothing. -/
def osRename (fs : FS) (o n : GoString) : FS :=
  match fs o with
  | none => fs
  | some data => fun x => if x = n then some data else if x = o then none else fs x

/-- An `*os.File`: the file it was opened on, whether `O_APPEND` was given, the
offset of the next write, and whether it has been closed. -/
structure File where
  name : GoString
  append : Bool
  offset : Nat
  closed : Bool
  deriving DecidableEq, Repr

/-- The call `os.OpenFile(name, os.O_CREATE|os.O_WRONLY, 0666)`, with `os.O_APPEND`
when `append` is set; `opens` is whether the system grants the open, and `none` is
the error return. A missing file is created empty, an existing one keeps its contents
(there is no `O_TRUNC`). -/
def osOpenFile (fs : FS) (name : GoString) (append : Bool) (opens : Bool) :
    Option (FS × File) :=
  if opens then
    some (match fs name with
      | none => fun x => if x = name then some [] else fs x
      | some _ => fs,
     File.mk name append 0 false)
  else none

/-- What the device does with one write: it takes every byte, or it fails after
taking the first `n` bytes. -/
inductive WriteOutcome where
  | ok : WriteOutcome
  | fail : Nat → WriteOutcome
  deriving DecidableEq, Repr

/-- The contents of a file after `s` is written at offset `off`. -/
def writeAt (data : GoString) (off : Nat) (s : GoString) : GoString :=
  data.take off ++ List.replicate (off - data.length) (Char.ofNat 0) ++ s
    ++ data.drop (off + s.length)

/-- The method `File.WriteString`: the file system and the handle afterwards, the byte
count `n`, and whether the error `e` is non-nil. A closed handle takes nothing. -/
def File.WriteString (f : File) (fs : FS) (s : GoString) (o : WriteOutcome) :
    FS × File × Int × Bool :=
  if f.closed then (fs, f, 0, true)
  else
    let taken : GoString := match o with
      | WriteOutcome.ok => s
      | WriteOutcome.fail n => s.take n
    let failed : Bool := match o with
      | WriteOutcome.ok => false
      | WriteOutcome.fail _ => true
    match fs f.name with
    | none => (fs, File.mk f.name f.append (f.offset + taken.length) f.closed,
        (taken.length : Int), failed)
    | some data =>
      let data2 := if f.append then data ++ taken else writeAt data f.offset taken
      let off2 := if f.append then data.length + taken.length else f.offset + taken.length
      (fun x => if x = f.name then some data2 else fs x,
        File.mk f.name f.append off2 f.closed, (taken.length : Int), failed)

/-- The method `File.Close` through a `*os.File` that may be nil (`none`): on nil the
call only returns an error. -/
def fileClose (f : Option File) : Option File :=
  match f with
  | none => none
  | some h => some (File.mk h.name h.append h.offset true)

/-- The method `File.WriteString` through a `*os.File` that may be nil (`none`): on nil
the call writes nothing and returns an error. -/
def fileWriteString (f : Option File) (fs : FS) (s : GoString) (o : WriteOutcome) :
    FS × Option File × Int × Bool :=
  match f with
  | none => (fs, none, 0, true)
  | some h =>
    ((h.WriteString fs s o).1, some (h.WriteString fs s o).2.1,
      (h.WriteString fs s o).2.2.1, (h.WriteString fs s o).2.2.2)

/-- Wrap-around of the 64-bit `int`. -/
def wrapInt (x : Int) : Int := (x + 2 ^ 63) % 2 ^ 64 - 2 ^ 63

/-- The fields of `FilePrinter` that the background writer owns; `file` is `none` when
the pointer is nil. The channel `ch` and the wait group `w` are the `ch` and `wg` of
the runs below; `blockMillis` belongs to the producers. -/
structure FilePrinter where
  baseName : GoString
  file : Option File
  rsize : Int
  csize : Int
  backup : Int
  deriving DecidableEq, Repr

/-- A call the background writer makes, in the order made. -/
inductive FileOp where
  | sync : FileOp
  | close : FileOp
  | roll : FileOp
  | openFile : FileOp
  | writeString : GoString → FileOp
  | done : FileOp
  deriving DecidableEq, Repr

/-- The world of the background writer: the file system and the calls made so far. -/
structure World where
  fs : FS
  ops : List FileOp

/-- What the system does in one turn of the writer loop: whether it grants the
`os.OpenFile` of a rotation, and what the device does with the write. -/
structure TurnEnv where
  opens : Bool
  write : WriteOutcome
  deriving DecidableEq, Repr

/-- The loop `for i := this.backup - 1; i > 0; i--` of `roll`, at counter value `i`. -/
def rollLoop (baseName : GoString) : Nat → FS → FS
  | 0, fs => fs
  | i + 1, fs =>
    let o := baseName ++ ".".toList ++ Itoa ((i + 1 : Nat) : Int)
    let n := baseName ++ ".".toList ++ Itoa (((i + 1 : Nat) : Int) + 1)
    rollLoop baseName i (osRename fs o n)

/-- The method `FilePrinter.roll`. -/
def FilePrinter.roll (this : FilePrinter) (fs : FS) : FS :=
  if this.backup = 0 then osRemove fs this.baseName
  else
    let fs := osRemove fs (this.baseName ++ ".".toList ++ Itoa this.backup)
    let fs := rollLoop this.baseName (this.backup - 1).toNat fs
    osRename fs this.baseName (this.baseName ++ ".1".toList)

/-- The method `FilePrinter.checkfile`; `opens` is whether the system grants the
`os.OpenFile`, whose error the code drops: on failure `this.file` is nil. -/
def FilePrinter.checkfile (this : FilePrinter) (w : World) (opens : Bool) :
    FilePrinter × World :=
  if this.csize > this.rsize then
    let this1 := FilePrinter.mk this.baseName (fileClose this.file) this.rsize this.csize
      this.backup
    let fs1 := this1.roll w.fs
    let ops := w.ops ++ [FileOp.sync, FileOp.close, FileOp.roll, FileOp.openFile]
    match osOpenFile fs1 this1.baseName false opens with
    | some r =>
      (FilePrinter.mk this1.baseName (some r.2) this1.rsize 0 this1.backup, World.mk r.1 ops)
    | none =>
      (FilePrinter.mk this1.baseName none this1.rsize 0 this1.backup, World.mk fs1 ops)
  else (this, w)

/-- One turn of the loop of `flush` on a dequeued line `s` (not the shutdown marker);
`e` is what the system does in this turn. The sums are those of the 64-bit `int`. -/
def FilePrinter.flushStep (this : FilePrinter) (w : World) (s : GoString)
    (e : TurnEnv) : FilePrinter × World :=
  let r := this.checkfile w e.opens
  let this1 := r.1
  let wr := fileWriteString this1.file r.2.fs s e.write
  let n := wr.2.2.1
  let err := wr.2.2.2
  let csize := if err then wrapInt (this1.rsize + 1) else wrapInt (this1.csize + n)
  (FilePrinter.mk this1.baseName wr.2.1 this1.rsize csize this1.backup,
    World.mk wr.1 (r.2.ops ++ [FileOp.writeString s]))

/-- Where a run of `flush` stands when the queue holds nothing more to receive: the
sink state, the world, the counter of the wait group `w`, the items left in the
channel, and whether the function has returned. -/
structure FlushResult where
  printer : FilePrinter
  world : World
  wg : Int
  queue : List (Option GoString)
  terminated : Bool

/-- The loop `for { select { case s := <-this.ch: ... } }` of `flush` on the items the
channel delivers, in order; `none` is the nil shutdown marker, `wg` is the counter of
the wait group, and `os i` is what the system does in the `i`-th turn. On the marker
the function returns and the deferred function closes the file and calls
`this.w.Done()`; with the channel empty the receive blocks. -/
def FilePrinter.flushLoop (this : FilePrinter) (w : World) (wg : Int) :
    List (Option GoString) → (Nat → TurnEnv) → FlushResult
  | [], _ => FlushResult.mk this w wg [] false
  | none :: rest, _ =>
    FlushResult.mk
      (FilePrinter.mk this.baseName (fileClose this.file) this.rsize this.csize this.backup)
      (World.mk w.fs (w.ops ++ [FileOp.close, FileOp.done])) (wg - 1) rest true
  | some s :: rest, os =>
    let r := this.flushStep w s (os 0)
    FilePrinter.flushLoop r.1 r.2 wg rest (fun i => os (i + 1))

/-- The method `FilePrinter.flush`, run on its own: `this.w.Add(1)`, then the loop. -/
def FilePrinter.flush (this : FilePrinter) (w : World) (wg : Int)
    (q : List (Option GoString)) (os : Nat → TurnEnv) : FlushResult :=
  this.flushLoop w (wg + 1) q os

/-- The turns of the loop of `flush` on the items the channel delivers: for each line
dequeued ahead of the shutdown marker, the sink state and the world at the start of
the turn, the line, and what the system does in the turn. -/
def FilePrinter.turns (this : FilePrinter) (w : World) :
    List (Option GoString) → (Nat → TurnEnv)
      → List (FilePrinter × World × GoString × TurnEnv)
  | [], _ => []
  | none :: _, _ => []
  | some s :: rest, os =>
    let r := this.flushStep w s (os 0)
    (this, w, s, os 0) :: FilePrinter.turns r.1 r.2 rest (fun i => os (i + 1))

/-- The configuration `FileConfig`. -/
structure FileConfig where
  Maxrn : Int
  Dir : GoString
  Name : GoString
  SizeKB : Int
  Backup : Int
  BlockMillis : Int

/-- How a call of `NewFilePrinter` ends: with the sink (its state, the file system, the
channel's capacity and the channel's contents when the writer goroutine is started),
with the error return `nil, e`, or in a panic. -/
inductive Construction where
  | built : FilePrinter → FS → Int → List (Option GoString) → Construction
  | failed : Construction
  | panicked : Construction

/-- The function `NewFilePrinter` once the path is settled: `path` is the cleaned
absolute `<dir>/<name>.log`, or `none` when `filepath.Abs` or `os.MkdirAll` returned an
error; `opens` is whether the system grants the `os.OpenFile`, `stats` whether
`p.file.Stat()` succeeds (its error is dropped, and `fs.Size()` on the nil result
panics); `start` is the start-marker line, which `Print` puts on the empty channel
before `go p.flush()`. -/
def NewFilePrinter (cfg : FileConfig) (path : Option GoString) (opens stats : Bool)
    (start : GoString) (fs : FS) : Construction :=
  let maxrn := if cfg.Maxrn < 1 then 1024 else cfg.Maxrn
  let sizeKB := if cfg.SizeKB < 1 then 8192 else cfg.SizeKB
  match path with
  | none => Construction.failed
  | some baseName =>
    match osOpenFile fs baseName true opens with
    | none => Construction.failed
    | some r =>
      if stats then
        let size : Int := match r.1 baseName with
          | none => 0
          | some data => (data.length : Int)
        Construction.built
          (FilePrinter.mk baseName (some r.2) (wrapInt (sizeKB * 1024)) size cfg.Backup)
          r.1 maxrn [some start]
      else Construction.panicked

/-- Where the writer goroutine stands: created by `go p.flush()` and not yet run, in
the loop after `this.w.Add(1)`, or returned. -/
inductive WriterAt where
  | created : WriterAt
  | looping : WriterAt
  | returned : WriterAt
  deriving DecidableEq, Repr

/-- Where a caller of `FilePrinter.Close` stands: before `this.ch <- nil`, before
`this.w.Wait()`, or returned. -/
inductive CloserAt where
  | sending : CloserAt
  | waiting : CloserAt
  | returned : CloserAt
  deriving DecidableEq, Repr

/-- The sink shared by the writer goroutine and a caller of `Close`: the sink state
and the world, the buffered channel `ch` with its capacity, the counter of the wait
group `w`, where the two goroutines stand, and the number of turns the writer has
made. -/
structure Sys where
  printer : FilePrinter
  world : World
  ch : List (Option GoString)
  cap : Int
  wg : Int
  writer : WriterAt
  closer : CloserAt
  turn : Nat

/-- One step of the writer goroutine in `flush`: `this.w.Add(1)`; or a receive from
the channel and the turn of the loop it starts, which blocks while the channel is
empty and, on the nil marker, returns through the deferred `this.file.Close()` and
`this.w.Done()`. -/
def writerStep (os : Nat → TurnEnv) (σ : Sys) : Sys :=
  match σ.writer with
  | WriterAt.created =>
    Sys.mk σ.printer σ.world σ.ch σ.cap (σ.wg + 1) WriterAt.looping σ.closer σ.turn
  | WriterAt.looping =>
    match σ.ch with
    | [] => σ
    | none :: rest =>
      Sys.mk
        (FilePrinter.mk σ.printer.baseName (fileClose σ.printer.file) σ.printer.rsize
          σ.printer.csize σ.printer.backup)
        (World.mk σ.world.fs (σ.world.ops ++ [FileOp.close, FileOp.done]))
        rest σ.cap (σ.wg - 1) WriterAt.returned σ.closer σ.turn
    | some s :: rest =>
      Sys.mk (σ.printer.flushStep σ.world s (os σ.turn)).1
        (σ.printer.flushStep σ.world s (os σ.turn)).2
        rest σ.cap σ.wg WriterAt.looping σ.closer (σ.turn + 1)
  | WriterAt.returned => σ

/-- One step of a caller in `FilePrinter.Close`: the send `this.ch <- nil`, which
blocks while the buffer is full, or `this.w.Wait()`, which blocks while the counter is
not zero. -/
def closerStep (σ : Sys) : Sys :=
  match σ.closer with
  | CloserAt.sending =>
    if (σ.ch.length : Int) < σ.cap then
      Sys.mk σ.printer σ.world (σ.ch ++ [none]) σ.cap σ.wg σ.writer CloserAt.waiting σ.turn
    else σ
  | CloserAt.waiting =>
    if σ.wg = 0 then
      Sys.mk σ.printer σ.world σ.ch σ.cap σ.wg σ.writer CloserAt.returned σ.turn
    else σ
  | CloserAt.returned => σ

/-- Which goroutine the scheduler runs next. -/
inductive Pick where
  | writer : Pick
  | closer : Pick
  deriving DecidableEq, Repr

/-- The sink after the scheduler has run the goroutines in the order of `sched`. -/
def runSched (os : Nat → TurnEnv) : List Pick → Sys → Sys
  | [], σ => σ
  | Pick.writer :: rest, σ => runSched os rest (writerStep os σ)
  | Pick.closer :: rest, σ => runSched os rest (closerStep σ)

/-- The sink as `NewFilePrinter` returns it to a caller that goes on to call `Close`:
the writer goroutine created, the wait group's counter zero. -/
def afterNew : Construction → Option Sys
  | Construction.built p fs cap q =>
    some (Sys.mk p (World.mk fs []) q cap 0 WriterAt.created CloserAt.sending 0)
  | Construction.failed => none
  | Construction.panicked => none

/-- The call `fmt.Sprintf(format)` on a template without verbs and without operands:
the template itself. -/
def verbatim (format : GoString) (_ : List GoString) : GoString := format

/-- A sample file system: the active file and one backup. -/
def fs0 : FS := fun x =>
  if x = "app.log".toList then some "new".toList
  else if x = "app.log.1".toList then some "old".toList
  else none

/-- A sample sink state over the threshold: 2000 bytes tracked, threshold 1024,
retention 2. -/
def p0 : FilePrinter :=
  FilePrinter.mk "app.log".toList (some (File.mk "app.log".toList true 0 false)) 1024 2000 2

/-- A sample sink state under the threshold: 3 bytes tracked. -/
def p1 : FilePrinter :=
  FilePrinter.mk "app.log".toList (some (File.mk "app.log".toList true 0 false)) 1024 3 2

def w0 : World := World.mk fs0 []

/-- A sample start-marker line. -/
def startLine : GoString :=
  "[11-04 09:05:07.123][INFO ] ------------ start ------------\r\n".toList

/-- The configuration `FileConfig{}`: every field left to its default. -/
def cfg0 : FileConfig := FileConfig.mk 0 [] [] 0 0 0

/-- A system that grants every open and takes every write whole. -/
def okEnv : Nat → TurnEnv := fun _ => TurnEnv.mk true WriteOutcome.ok

/-- What is seen of the sink: where the caller of `Close` and the writer stand, the
channel, the wait group's counter, the calls the writer has made, and the contents of
the log file. -/
structure Seen where
  closer : CloserAt
  writer : WriterAt
  ch : List (Option GoString)
  wg : Int
  ops : List FileOp
  log : Option GoString
  deriving DecidableEq, Repr

/-- What is seen of a sink. -/
def observe (σ : Sys) : Seen :=
  Seen.mk σ.closer σ.writer σ.ch σ.wg σ.world.ops (σ.world.fs σ.printer.baseName)

def t0 : Clock := Clock.mk 11 4 9 5 7 123456789
def c0 : CallerInfo := CallerInfo.mk "/home/u/go/src/app/main.go".toList 42 true

/-- The name of backup slot `i`: the base name, a dot, and the number. -/
def slot (baseName : GoString) (i : Nat) : GoString :=
  baseName ++ ".".toList ++ Itoa (i : Int)

/-- The number of calls of `roll` among the calls made. -/
def rollCount (ops : List FileOp) : Nat := ops.count FileOp.roll

/-- The lines handed to `WriteString` among the calls made, in order. -/
def writesOf : List FileOp → List GoString
  | [] => []
  | FileOp.writeString s :: rest => s :: writesOf rest
  | _ :: rest => writesOf rest

/-- The concatenation of a sequence of lines. -/
def concatLines : List GoString → GoString
  | [] => []
  | l :: ls => l ++ concatLines ls

/-- Reading a decimal rendering back. -/
def decodeDigits (l : List Char) : Nat :=
  Nat.ofDigits 10 ((l.map (fun c => c.toNat - 48)).reverse)

/-- The attachments of a list that a call at level `lv` is handed to. -/
def eligible (lv : lev) (lp : List levPrinter) : List levPrinter :=
  lp.filter (fun n => decide (n.l ≤ lv))

/-- The calls "print, then close" made on each attachment of a list in turn. -/
def printThenClose (str : GoString) : List levPrinter → List Event
  | [] => []
  | n :: rest => Event.print n.p str :: Event.close n.p :: printThenClose str rest

/-- Whether every close in a sequence of sink calls comes after every delivery: no
line is handed to a sink once some sink has been closed. -/
def closesLast : List Event → Bool
  | [] => true
  | Event.print _ _ :: rest => closesLast rest
  | Event.close _ :: rest => (deliveries rest).isEmpty && closesLast rest

/-- The smallest threshold among the attachments. -/
def minThreshold (s : Logger) : Option lev :=
  (s.lp.map (fun n => n.l)).min?

/-- A message with one trailing newline, if it has one, removed. -/
def dropNewline (s : GoString) : GoString :=
  if s.getLast? = some '\n' then s.dropLast else s

/-! ## Lemmas: Go strings and the formatter -/

theorem goIndex_some_of_lt {α : Type} (s : List α) (i : Int) (h0 : 0 ≤ i)
    (h1 : i < (s.length : Int)) : ∃ a, goIndex s i = some a := by
  have hlt : i.toNat < s.length := by omega
  refine ⟨s.get ⟨i.toNat, hlt⟩, ?_⟩
  simp [goIndex, h0, h1, List.getElem?_eq_getElem hlt]

theorem goIndex_nil {α : Type} (i : Int) : goIndex ([] : List α) i = none := by
  simp [goIndex]

theorem goIndex_concat_last {α : Type} (s : List α) (a : α) :
    goIndex (s ++ [a]) (((s ++ [a]).length : Int) - 1) = some a := by
  have h : (((s ++ [a]).length : Int) - 1) = (s.length : Int) := by simp
  rw [h]
  simp [goIndex]

theorem goSliceTo_concat {α : Type} (s : List α) (a : α) :
    goSliceTo (s ++ [a]) (((s ++ [a]).length : Int) - 1) = some s := by
  have h : (((s ++ [a]).length : Int) - 1) = (s.length : Int) := by simp
  rw [h]
  simp [goSliceTo]

theorem goSliceTo_length {α : Type} (s : List α) :
    goSliceTo s (s.length : Int) = some s := by
  simp [goSliceTo]

theorem dropNewline_concat (s : GoString) (a : Char) :
    dropNewline (s ++ [a]) = if a = '\n' then s else s ++ [a] := by
  simp [dropNewline]

theorem callSite_total (c : CallerInfo) : ∃ fl, callSite c = some fl := by
  unfold callSite
  by_cases hok : c.ok = true
  · simp only [hok, Bool.not_true, Bool.false_eq_true, if_false]
    by_cases hi : ((splitSlash c.file).length : Int) > 2
    · obtain ⟨a, ha⟩ := goIndex_some_of_lt (splitSlash c.file)
        (((splitSlash c.file).length : Int) - 2) (by omega) (by omega)
      obtain ⟨b, hb⟩ := goIndex_some_of_lt (splitSlash c.file)
        (((splitSlash c.file).length : Int) - 1) (by omega) (by omega)
      refine ⟨(a ++ "/".toList ++ b, c.line), ?_⟩
      simp [hi, ha, hb]
    · exact ⟨(c.file, c.line), by simp [hi]⟩
  · exact ⟨("???".toList, 0), by simp [hok]⟩

theorem trimLen_concat (s : GoString) (a : Char) :
    trimLen (s ++ [a])
      = some (if a = '\n' then ((s ++ [a]).length : Int) - 1 else ((s ++ [a]).length : Int)) := by
  have hpos : (((s ++ [a]).length : Nat) : Int) > 0 := by simp
  unfold trimLen
  simp only [hpos, if_true]
  rw [goIndex_concat_last]
  rfl

theorem trimLen_slice (msg : GoString) :
    ∃ ml, trimLen msg = some ml ∧ goSliceTo msg ml = some (dropNewline msg) := by
  rcases List.eq_nil_or_concat msg with h | ⟨s, a, h⟩
  · subst h
    exact ⟨0, by simp [trimLen], by simp [goSliceTo, dropNewline]⟩
  · rw [List.concat_eq_append] at h
    subst h
    refine ⟨_, trimLen_concat s a, ?_⟩
    by_cases ha : a = '\n'
    · rw [if_pos ha, goSliceTo_concat, dropNewline_concat, if_pos ha]
    · rw [if_neg ha, goSliceTo_length, dropNewline_concat, if_neg ha]

/-- The line `combine` renders: the prefix, the message less one trailing newline,
and the call-site suffix. It never panics. -/
theorem combine_eq (t : Clock) (c : CallerInfo) :
    ∃ fl, callSite c = some fl ∧ ∀ (lv : lev) (msg : GoString),
      combine t c lv msg = some (linePrefix t lv ++ dropNewline msg ++ lineSuffix fl) := by
  obtain ⟨fl, hfl⟩ := callSite_total c
  refine ⟨fl, hfl, ?_⟩
  intro lv msg
  obtain ⟨ml, h1, h2⟩ := trimLen_slice msg
  simp [combine, hfl, h1, h2]

theorem Formatf_nil (sprintf : GoString → List GoString → GoString) (t : Clock)
    (c : CallerInfo) (lv : lev) (args : List GoString) :
    Formatf sprintf t c lv [] args = none := by
  simp [Formatf, goIndex_nil]

theorem Formatf_concat (sprintf : GoString → List GoString → GoString) (t : Clock)
    (c : CallerInfo) (lv : lev) (s : GoString) (a : Char) (args : List GoString) :
    Formatf sprintf t c lv (s ++ [a]) args
      = combine t c lv (sprintf (if a = '\n' then s else s ++ [a]) args) := by
  unfold Formatf
  rw [goIndex_concat_last, goSliceTo_concat]
  by_cases ha : a = '\n' <;> simp [ha]

/-! ## Lemmas: builder and dispatcher -/

theorem foldl_AddPrinter_lp (adds : List (lev × Printer)) (b : LoggerBuilder) :
    (adds.foldl (fun b a => b.AddPrinter a.1 a.2) b).log.lp
      = b.log.lp ++ adds.map (fun a => levPrinter.mk a.1 a.2) := by
  induction adds generalizing b with
  | nil => simp
  | cons a rest ih =>
    rw [List.foldl_cons, ih]
    simp [LoggerBuilder.AddPrinter]

theorem foldl_AddPrinter_root (adds : List (lev × Printer)) (b : LoggerBuilder) :
    (adds.foldl (fun b a => b.AddPrinter a.1 a.2) b).log.rootLev ≤ b.log.rootLev
    ∧ ∀ a ∈ adds, (adds.foldl (fun b a => b.AddPrinter a.1 a.2) b).log.rootLev ≤ a.1 := by
  induction adds generalizing b with
  | nil => simp
  | cons a rest ih =>
    rw [List.foldl_cons]
    obtain ⟨h1, h2⟩ := ih (b.AddPrinter a.1 a.2)
    have h3 : (b.AddPrinter a.1 a.2).log.rootLev ≤ b.log.rootLev
        ∧ (b.AddPrinter a.1 a.2).log.rootLev ≤ a.1 := by
      simp only [LoggerBuilder.AddPrinter]
      split_ifs <;> constructor <;> linarith
    refine ⟨le_trans h1 h3.1, ?_⟩
    intro x hx
    rcases List.mem_cons.mp hx with rfl | hx
    · exact le_trans h1 h3.2
    · exact h2 x hx

theorem assemble_lp (consoleLev : lev) (adds : List (lev × Printer)) :
    (assemble consoleLev adds).lp
      = levPrinter.mk consoleLev Printer.console
        :: adds.map (fun a => levPrinter.mk a.1 a.2) := by
  unfold assemble LoggerBuilder.Build
  rw [foldl_AddPrinter_lp]
  simp [NewBuilder, LoggerBuilder.AddPrinter]

/-- The cached root threshold of an assembled dispatcher is at most zero and at most
every attachment's threshold. -/
theorem assemble_rootLev_le (consoleLev : lev) (adds : List (lev × Printer)) :
    (assemble consoleLev adds).rootLev ≤ 0
    ∧ ∀ n ∈ (assemble consoleLev adds).lp, (assemble consoleLev adds).rootLev ≤ n.l := by
  obtain ⟨h1, h2⟩ := foldl_AddPrinter_root adds (NewBuilder consoleLev)
  have h3 : (NewBuilder consoleLev).log.rootLev ≤ 0
      ∧ (NewBuilder consoleLev).log.rootLev ≤ consoleLev := by
    simp only [NewBuilder, LoggerBuilder.AddPrinter]
    split_ifs <;> constructor <;> linarith
  refine ⟨le_trans h1 h3.1, ?_⟩
  intro n hn
  rw [assemble_lp] at hn
  rcases List.mem_cons.mp hn with rfl | hn
  · exact le_trans h1 h3.2
  · obtain ⟨a, ha, rfl⟩ := List.mem_map.mp hn
    exact h2 a ha

/-- With every threshold on the level scale (none below DEBUG), the cached root
threshold of an assembled dispatcher is DEBUG whatever the thresholds are. -/
theorem assemble_rootLev_zero (consoleLev : lev) (adds : List (lev × Printer))
    (hc : 0 ≤ consoleLev) (ha : ∀ a ∈ adds, 0 ≤ a.1) :
    (assemble consoleLev adds).rootLev = LevDEBUG := by
  have key : ∀ (l : List (lev × Printer)) (b : LoggerBuilder), b.log.rootLev = 0 →
      (∀ a ∈ l, 0 ≤ a.1) →
      (l.foldl (fun b a => b.AddPrinter a.1 a.2) b).log.rootLev = 0 := by
    intro l
    induction l with
    | nil => intro b hb _; simpa using hb
    | cons a rest ih =>
      intro b hb hl
      rw [List.foldl_cons]
      apply ih
      · have h0 : 0 ≤ a.1 := hl a (List.mem_cons_self _ _)
        simp only [LoggerBuilder.AddPrinter, hb]
        rw [if_neg (by linarith)]
      · intro x hx
        exact hl x (List.mem_cons_of_mem _ hx)
  have hnb : (NewBuilder consoleLev).log.rootLev = 0 := by
    simp only [NewBuilder, LoggerBuilder.AddPrinter]
    rw [if_neg (by linarith)]
  exact key adds _ hnb ha

theorem deliveries_append (xs ys : List Event) :
    deliveries (xs ++ ys) = deliveries xs ++ deliveries ys := by
  induction xs with
  | nil => rfl
  | cons e rest ih => cases e <;> simp [deliveries, ih]

theorem deliveries_fanOut (lv : lev) (str : GoString) (lp : List levPrinter) :
    deliveries (fanOut lv str lp) = (eligible lv lp).map (fun n => (n.p, str)) := by
  induction lp with
  | nil => rfl
  | cons n rest ih =>
    simp only [fanOut, deliveries_append, ih, eligible, List.filter_cons]
    by_cases h : n.l ≤ lv
    · by_cases hf : lv = LevFATAL
      · rw [if_pos h, if_pos hf]
        simp [h, deliveries]
      · rw [if_pos h, if_neg hf]
        simp [h, deliveries]
    · rw [if_neg h]
      simp [h, deliveries]

theorem fanOut_fatal (str : GoString) (lp : List levPrinter) :
    fanOut LevFATAL str lp = printThenClose str (eligible LevFATAL lp) := by
  induction lp with
  | nil => rfl
  | cons n rest ih =>
    simp only [fanOut, ih, eligible, List.filter_cons]
    by_cases h : n.l ≤ LevFATAL <;> simp [h, printThenClose]

theorem eligible_all (lv : lev) (lp : List levPrinter) (h : ∀ n ∈ lp, n.l ≤ lv) :
    eligible lv lp = lp := by
  simp only [eligible]
  rw [List.filter_eq_self]
  intro n hn
  simpa using h n hn

theorem eligible_nil_of_lt (lv : lev) (lp : List levPrinter) (h : ∀ n ∈ lp, lv < n.l) :
    eligible lv lp = [] := by
  simp only [eligible]
  rw [List.filter_eq_nil_iff]
  intro n hn
  have := h n hn
  simp only [decide_eq_true_eq]
  linarith

/-- On an assembled dispatcher the root-threshold test of `out` and `outf` changes
nothing: below it no attachment is eligible. -/
theorem fanOut_below_root (consoleLev : lev) (adds : List (lev × Printer)) (lv : lev)
    (str : GoString) (h : ¬ (assemble consoleLev adds).rootLev ≤ lv) :
    fanOut lv str (assemble consoleLev adds).lp = [] := by
  have hall : ∀ n ∈ (assemble consoleLev adds).lp, lv < n.l := by
    intro n hn
    have := (assemble_rootLev_le consoleLev adds).2 n hn
    linarith
  generalize (assemble consoleLev adds).lp = lp at hall
  induction lp with
  | nil => rfl
  | cons n rest ih =>
    have h1 : ¬ lv ≥ n.l := by
      have := hall n (List.mem_cons_self _ _)
      linarith
    simp only [fanOut, h1, if_false, List.nil_append]
    exact ih (fun m hm => hall m (List.mem_cons_of_mem _ hm))

theorem out_assemble (consoleLev : lev) (adds : List (lev × Printer)) (t : Clock)
    (c : CallerInfo) (lv : lev) (args : List GoString) (line : GoString)
    (hline : Format t c lv args = some line) :
    (assemble consoleLev adds).out t c lv args
      = some (fanOut lv line (assemble consoleLev adds).lp) := by
  unfold Logger.out
  by_cases h : (assemble consoleLev adds).rootLev ≤ lv
  · simp [h, hline]
  · simp [h, fanOut_below_root consoleLev adds lv line h]

theorem outf_assemble (consoleLev : lev) (adds : List (lev × Printer))
    (sprintf : GoString → List GoString → GoString) (t : Clock)
    (c : CallerInfo) (lv : lev) (format : GoString) (args : List GoString) (line : GoString)
    (hline : Formatf sprintf t c lv format args = some line) :
    (assemble consoleLev adds).outf sprintf t c lv format args
      = some (fanOut lv line (assemble consoleLev adds).lp) := by
  unfold Logger.outf
  by_cases h : (assemble consoleLev adds).rootLev ≤ lv
  · simp [h, hline]
  · simp [h, fanOut_below_root consoleLev adds lv line h]

theorem Format_total (t : Clock) (c : CallerInfo) (lv : lev) (args : List GoString) :
    ∃ line, Format t c lv args = some line := by
  obtain ⟨fl, _, h⟩ := combine_eq t c
  exact ⟨_, h lv (Sprintln args)⟩

theorem Formatf_total (sprintf : GoString → List GoString → GoString) (t : Clock)
    (c : CallerInfo) (lv : lev) (format : GoString) (args : List GoString)
    (hf : format ≠ []) : ∃ line, Formatf sprintf t c lv format args = some line := by
  rcases List.eq_nil_or_concat format with h | ⟨s, a, h⟩
  · exact absurd h hf
  · rw [List.concat_eq_append] at h
    subst h
    obtain ⟨fl, _, h⟩ := combine_eq t c
    exact ⟨_, by rw [Formatf_concat]; exact h lv _⟩

theorem runtimeStack_slice (stack : GoString) (n : Nat) :
    goSliceTo (runtimeStack stack n).1 (runtimeStack stack n).2 = some (stack.take n) := by
  unfold runtimeStack goSliceTo
  have hlen : ((min stack.length n : Nat) : Int)
      ≤ ((stack.take n ++ List.replicate (n - stack.length) (Char.ofNat 0)).length : Int) := by
    simp only [List.length_append, List.length_take, List.length_replicate]
    omega
  have h0 : (0 : Int) ≤ ((min stack.length n : Nat) : Int) := by omega
  simp only [h0, hlen, and_self, if_true, Int.toNat_ofNat]
  congr 1
  rw [List.take_append_eq_append_take]
  rcases Nat.le_total stack.length n with h | h
  · rw [Nat.min_eq_left h, List.take_of_length_le h]
    simp
  · rw [Nat.min_eq_right h]
    simp [List.take_take, Nat.sub_eq_zero_of_le h]

/-- The loop of `printStack` stops in its first turn: the test `nbytes <= len(trace)`
holds for every capture. -/
theorem stackLoop_first (stack : GoString) (k : Nat) (n : Int) (buf : GoString) :
    stackLoop stack (k + 1) n buf
      = ((runtimeStack stack (n * 2).toNat).2, (runtimeStack stack (n * 2).toNat).1) := by
  have hlen : (runtimeStack stack (n * 2).toNat).2
      ≤ (((runtimeStack stack (n * 2).toNat).1.length : Nat) : Int) := by
    simp only [runtimeStack, List.length_append, List.length_take, List.length_replicate]
    omega
  simp only [stackLoop, hlen, if_true]

/-- What `printStack` hands to the sinks: the first `2 * base` bytes of the trace, to
every attachment. -/
theorem printStack_eq (s : Logger) (all : Bool) (stack : GoString) :
    s.printStack all stack
      = some (s.lp.map (fun n =>
          Event.print n.p (stack.take (if all then 2000 else 1000)))) := by
  have h5 : ∀ (n : Int) (buf : GoString), stackLoop stack 5 n buf
      = ((runtimeStack stack (n * 2).toNat).2, (runtimeStack stack (n * 2).toNat).1) :=
    fun n buf => stackLoop_first stack 4 n buf
  unfold Logger.printStack
  simp only [h5, runtimeStack_slice]
  cases all <;> simp

theorem closes_printThenClose (str : GoString) (lp : List levPrinter) :
    closes (printThenClose str lp) = lp.map (fun n => n.p) := by
  induction lp with
  | nil => rfl
  | cons n rest ih => simp [printThenClose, closes, ih]

/-! ## Lemmas: file names and rotation -/

theorem digitChar_toNat (d : Nat) (h : d < 10) : (Nat.digitChar d).toNat - 48 = d := by
  interval_cases d <;> rfl

theorem toDigitsCore_eq (fuel : Nat) : ∀ (n : Nat) (acc : List Char), 0 < n → n < fuel →
    Nat.toDigitsCore 10 fuel n acc = (Nat.digits 10 n).reverse.map Nat.digitChar ++ acc := by
  induction fuel with
  | zero => intro n acc _ h; omega
  | succ fuel ih =>
    intro n acc hn hlt
    rw [Nat.digits_def' (by norm_num) hn]
    simp only [Nat.toDigitsCore]
    by_cases h0 : n / 10 = 0
    · simp [h0]
    · rw [if_neg h0, ih (n / 10) _ (Nat.pos_of_ne_zero h0) (by omega)]
      simp

theorem decodeDigits_toDigits (n : Nat) : decodeDigits (Nat.toDigits 10 n) = n := by
  rcases Nat.eq_zero_or_pos n with h | h
  · subst h; rfl
  · unfold Nat.toDigits
    rw [toDigitsCore_eq (n + 1) n [] h (by omega)]
    unfold decodeDigits
    simp only [List.append_nil, List.map_map, List.map_reverse, List.reverse_reverse]
    have hmap : List.map ((fun c => c.toNat - 48) ∘ Nat.digitChar) (Nat.digits 10 n)
        = Nat.digits 10 n := by
      conv_rhs => rw [← List.map_id (Nat.digits 10 n)]
      apply List.map_congr_left
      intro d hd
      exact digitChar_toNat d (Nat.digits_lt_base (by norm_num) hd)
    rw [hmap, Nat.ofDigits_digits]

theorem Itoa_natCast_injective (a b : Nat) (h : Itoa (a : Int) = Itoa (b : Int)) : a = b := by
  have ha : ¬ ((a : Int) < 0) := by omega
  have hb : ¬ ((b : Int) < 0) := by omega
  simp only [Itoa, ha, hb, if_false, Int.natAbs_ofNat] at h
  have := congrArg decodeDigits h
  rwa [decodeDigits_toDigits, decodeDigits_toDigits] at this

theorem slot_injective (b : GoString) (i j : Nat) (h : slot b i = slot b j) : i = j := by
  unfold slot at h
  exact Itoa_natCast_injective i j (List.append_cancel_left h)

theorem base_ne_slot (b : GoString) (i : Nat) : b ≠ slot b i := by
  intro h
  have hlen := congrArg List.length h
  simp [slot] at hlen

theorem slot_one (b : GoString) : b ++ ".1".toList = slot b 1 := by
  simp [slot, Itoa]
  rfl

theorem osRename_apply (fs : FS) (o n x : GoString) :
    osRename fs o n x
      = if x = n then (match fs o with | none => fs n | some d => some d)
        else if x = o then none else fs x := by
  unfold osRename
  cases h : fs o with
  | none =>
    by_cases h1 : x = n
    · simp [h1]
    · by_cases h2 : x = o
      · subst h2
        simp [h1, h]
      · simp [h1, h2]
  | some d => rfl

/-- The loop of `roll`, run from counter `k` on a file system where slot `k + 1` is
free, moves slot `j` to slot `j + 1` for `1 ≤ j ≤ k`, frees slot 1, and touches no
other file. -/
theorem rollLoop_spec (b : GoString) (k : Nat) : ∀ fs : FS, fs (slot b (k + 1)) = none →
    (∀ j, 1 ≤ j → j ≤ k → rollLoop b k fs (slot b (j + 1)) = fs (slot b j))
    ∧ (1 ≤ k → rollLoop b k fs (slot b 1) = none)
    ∧ (∀ x, (∀ j, 1 ≤ j → j ≤ k + 1 → x ≠ slot b j) → rollLoop b k fs x = fs x) := by
  induction k with
  | zero =>
    intro fs _
    refine ⟨fun j h1 h2 => by omega, fun h => by omega, fun x _ => rfl⟩
  | succ i ih =>
    intro fs hfree
    have hstep : rollLoop b (i + 1) fs
        = rollLoop b i (osRename fs (slot b (i + 1)) (slot b (i + 2))) := by
      simp only [rollLoop, slot]
      have hc : (((i + 1 : Nat) : Int) + 1) = ((i + 2 : Nat) : Int) := by push_cast; ring
      rw [hc]
    have hne : slot b (i + 1) ≠ slot b (i + 2) := fun h => by
      have := slot_injective b _ _ h
      omega
    have hfree2 : osRename fs (slot b (i + 1)) (slot b (i + 2)) (slot b (i + 1)) = none := by
      rw [osRename_apply, if_neg hne, if_pos rfl]
    obtain ⟨h1, h2, h3⟩ := ih (osRename fs (slot b (i + 1)) (slot b (i + 2))) hfree2
    rw [hstep]
    refine ⟨?_, ?_, ?_⟩
    · intro j hj1 hj2
      rcases Nat.lt_or_ge j (i + 1) with hlt | hge
      · rw [h1 j hj1 (by omega), osRename_apply]
        have n1 : slot b j ≠ slot b (i + 2) := fun h => by
          have := slot_injective b _ _ h
          omega
        have n2 : slot b j ≠ slot b (i + 1) := fun h => by
          have := slot_injective b _ _ h
          omega
        rw [if_neg n1, if_neg n2]
      · have hj : j = i + 1 := by omega
        subst hj
        rw [h3 (slot b (i + 1 + 1)) (fun j hj1 hj2 h => by
          have := slot_injective b _ _ h
          omega), osRename_apply, if_pos rfl]
        cases hsrc : fs (slot b (i + 1)) with
        | none => exact hfree
        | some d => rfl
    · intro _
      rcases Nat.eq_zero_or_pos i with hi | hi
      · subst hi
        exact hfree2
      · rw [h2 hi]
    · intro x hx
      rw [h3 x (fun j hj1 hj2 => hx j hj1 (by omega)), osRename_apply]
      rw [if_neg (hx (i + 2) (by omega) (by omega)), if_neg (hx (i + 1) (by omega) (by omega))]

/-! ## Lemmas: the background writer -/

theorem roll_base_absent (this : FilePrinter) (fs : FS) :
    this.roll fs this.baseName = none := by
  unfold FilePrinter.roll
  by_cases h : this.backup = 0
  · simp [h, osRemove]
  · rw [if_neg h, slot_one, osRename_apply, if_neg (base_ne_slot _ 1), if_pos rfl]

theorem wrapInt_of_range (x : Int) (h0 : -2 ^ 63 ≤ x) (h1 : x < 2 ^ 63) : wrapInt x = x := by
  unfold wrapInt
  omega

theorem wrapInt_range (x : Int) : -2 ^ 63 ≤ wrapInt x ∧ wrapInt x < 2 ^ 63 := by
  unfold wrapInt
  omega

theorem checkfile_keep (this : FilePrinter) (w : World) (opens : Bool)
    (h : ¬ this.csize > this.rsize) : this.checkfile w opens = (this, w) := by
  unfold FilePrinter.checkfile
  rw [if_neg h]

theorem checkfile_rotate_open (this : FilePrinter) (w : World)
    (h : this.csize > this.rsize) :
    this.checkfile w true
      = (FilePrinter.mk this.baseName (some (File.mk this.baseName false 0 false))
          this.rsize 0 this.backup,
        World.mk (fun x => if x = this.baseName then some [] else this.roll w.fs x)
          (w.ops ++ [FileOp.sync, FileOp.close, FileOp.roll, FileOp.openFile])) := by
  unfold FilePrinter.checkfile
  rw [if_pos h]
  have hr : (FilePrinter.mk this.baseName (fileClose this.file)
      this.rsize this.csize this.backup).roll w.fs = this.roll w.fs := rfl
  simp only [hr, osOpenFile, roll_base_absent, if_true]

theorem checkfile_rotate_fail (this : FilePrinter) (w : World)
    (h : this.csize > this.rsize) :
    this.checkfile w false
      = (FilePrinter.mk this.baseName none this.rsize 0 this.backup,
        World.mk (this.roll w.fs)
          (w.ops ++ [FileOp.sync, FileOp.close, FileOp.roll, FileOp.openFile])) := by
  unfold FilePrinter.checkfile
  rw [if_pos h]
  rfl

/-- The fields `checkfile` leaves, whatever the system does with the open. -/
theorem checkfile_fields (this : FilePrinter) (w : World) (opens : Bool) :
    (this.checkfile w opens).1.rsize = this.rsize
    ∧ (this.checkfile w opens).1.csize = (if this.csize > this.rsize then 0 else this.csize)
    ∧ (this.checkfile w opens).2.ops
        = w.ops ++ (if this.csize > this.rsize
            then [FileOp.sync, FileOp.close, FileOp.roll, FileOp.openFile] else []) := by
  by_cases h : this.csize > this.rsize
  · cases opens
    · rw [checkfile_rotate_fail this w h]
      simp [h]
    · rw [checkfile_rotate_open this w h]
      simp [h]
  · rw [checkfile_keep this w opens h]
    simp [h]

theorem writeAt_end (data s : GoString) : writeAt data data.length s = data ++ s := by
  simp [writeAt]

theorem WriteString_ok_open (f : File) (fs : FS) (s data : GoString)
    (hopen : f.closed = false) (hdata : fs f.name = some data)
    (hoff : f.append = true ∨ f.offset = data.length) :
    f.WriteString fs s WriteOutcome.ok
      = (fun x => if x = f.name then some (data ++ s) else fs x,
          File.mk f.name f.append (data.length + s.length) f.closed,
          (s.length : Int), false) := by
  unfold File.WriteString
  simp only [hopen, Bool.false_eq_true, if_false, hdata]
  rcases hoff with h | h
  · simp [h]
  · by_cases ha : f.append = true
    · simp [ha]
    · simp [ha, h, writeAt_end]

theorem WriteString_count (f : File) (fs : FS) (s : GoString) (o : WriteOutcome) :
    0 ≤ (f.WriteString fs s o).2.2.1 ∧ (f.WriteString fs s o).2.2.1 ≤ (s.length : Int) := by
  unfold File.WriteString
  by_cases hc : f.closed = true
  · simp [hc]
  · simp only [hc, if_false]
    cases hfs : fs f.name <;> cases o <;> simp [List.length_take]

theorem fileWriteString_count (f : Option File) (fs : FS) (s : GoString)
    (o : WriteOutcome) :
    0 ≤ (fileWriteString f fs s o).2.2.1
    ∧ (fileWriteString f fs s o).2.2.1 ≤ (s.length : Int) := by
  cases f with
  | none => simp [fileWriteString]
  | some h => exact WriteString_count h fs s o

theorem rollCount_append (xs ys : List FileOp) :
    rollCount (xs ++ ys) = rollCount xs + rollCount ys := by
  simp [rollCount, List.count_append]

theorem writesOf_append (xs ys : List FileOp) :
    writesOf (xs ++ ys) = writesOf xs ++ writesOf ys := by
  induction xs with
  | nil => rfl
  | cons e rest ih => cases e <;> simp [writesOf, ih]

/-- The calls one turn of the loop adds: those of a rotation, if the tracked count is
over the threshold, and the write. -/
theorem flushStep_ops (this : FilePrinter) (w : World) (s : GoString) (e : TurnEnv) :
    (this.flushStep w s e).2.ops
      = w.ops ++ (if this.csize > this.rsize
          then [FileOp.sync, FileOp.close, FileOp.roll, FileOp.openFile] else [])
        ++ [FileOp.writeString s] := by
  unfold FilePrinter.flushStep
  simp only [(checkfile_fields this w e.opens).2.2]

theorem flushStep_rollCount (this : FilePrinter) (w : World) (s : GoString)
    (e : TurnEnv) :
    rollCount (this.flushStep w s e).2.ops
      = rollCount w.ops + (if this.csize > this.rsize then 1 else 0) := by
  rw [flushStep_ops]
  by_cases h : this.csize > this.rsize
  · simp [h, rollCount, List.count_append, List.count_cons]
  · simp [h, rollCount, List.count_append, List.count_cons]

theorem flushStep_rsize (this : FilePrinter) (w : World) (s : GoString) (e : TurnEnv) :
    (this.flushStep w s e).1.rsize = this.rsize := by
  unfold FilePrinter.flushStep
  simp only [(checkfile_fields this w e.opens).1]

theorem flushLoop_cons_some (this : FilePrinter) (w : World) (wg : Int) (s : GoString)
    (q : List (Option GoString)) (os : Nat → TurnEnv) :
    this.flushLoop w wg (some s :: q) os
      = (this.flushStep w s (os 0)).1.flushLoop (this.flushStep w s (os 0)).2 wg q
          (fun i => os (i + 1)) := rfl

theorem flushLoop_rollCount_le (q : List (Option GoString)) :
    ∀ (this : FilePrinter) (w : World) (wg : Int) (os : Nat → TurnEnv),
      rollCount w.ops ≤ rollCount (this.flushLoop w wg q os).world.ops := by
  induction q with
  | nil => intro this w wg os; simp [FilePrinter.flushLoop]
  | cons item rest ih =>
    intro this w wg os
    cases item with
    | none => simp [FilePrinter.flushLoop, rollCount, List.count_append]
    | some s =>
      rw [flushLoop_cons_some]
      refine le_trans ?_ (ih _ _ _ _)
      rw [flushStep_rollCount]
      omega

theorem flushStep_keep_ok (this : FilePrinter) (w : World) (s prior : GoString)
    (f : File) (opens : Bool)
    (hrot : ¬ this.csize > this.rsize) (hfile : this.file = some f)
    (hopen : f.closed = false)
    (hname : f.name = this.baseName) (hprior : w.fs this.baseName = some prior)
    (hoff : f.append = true ∨ f.offset = prior.length) :
    this.flushStep w s (TurnEnv.mk opens WriteOutcome.ok)
      = (FilePrinter.mk this.baseName
          (some (File.mk f.name f.append (prior.length + s.length) f.closed))
          this.rsize (wrapInt (this.csize + (s.length : Int))) this.backup,
        World.mk (fun x => if x = f.name then some (prior ++ s) else w.fs x)
          (w.ops ++ [FileOp.writeString s])) := by
  unfold FilePrinter.flushStep
  rw [checkfile_keep this w opens hrot]
  simp only [hfile, fileWriteString]
  rw [WriteString_ok_open f w.fs s prior hopen (by rw [hname]; exact hprior) hoff]
  simp

/-- The loop of `flush` on a queue that holds `lines`, then the shutdown marker, then
`rest`: it returns with `rest` untouched, the file closed and the wait group's counter
one lower, having added the writes of `lines` in order and then the closing calls. -/
theorem flushLoop_marker (lines : List GoString) (rest : List (Option GoString)) :
    ∀ (this : FilePrinter) (w : World) (wg : Int) (os : Nat → TurnEnv),
      (this.flushLoop w wg (lines.map some ++ none :: rest) os).terminated = true
      ∧ (this.flushLoop w wg (lines.map some ++ none :: rest) os).queue = rest
      ∧ (this.flushLoop w wg (lines.map some ++ none :: rest) os).wg = wg - 1
      ∧ ∃ mid, (this.flushLoop w wg (lines.map some ++ none :: rest) os).world.ops
            = w.ops ++ mid ++ [FileOp.close, FileOp.done]
          ∧ writesOf mid = lines ∧ FileOp.done ∉ mid := by
  induction lines with
  | nil =>
    intro this w wg os
    exact ⟨rfl, rfl, rfl, [], by simp [FilePrinter.flushLoop], rfl, by simp⟩
  | cons s ls ih =>
    intro this w wg os
    rw [List.map_cons, List.cons_append, flushLoop_cons_some]
    obtain ⟨h1, h2, h3, mid, h4, h5, h6⟩ :=
      ih (this.flushStep w s (os 0)).1 (this.flushStep w s (os 0)).2 wg (fun i => os (i + 1))
    refine ⟨h1, h2, h3, (if this.csize > this.rsize
      then [FileOp.sync, FileOp.close, FileOp.roll, FileOp.openFile] else [])
        ++ [FileOp.writeString s] ++ mid, ?_, ?_, ?_⟩
    · rw [h4, flushStep_ops]
      simp only [List.append_assoc]
    · rw [writesOf_append, writesOf_append, h5]
      by_cases h : this.csize > this.rsize <;> simp [h, writesOf]
    · by_cases h : this.csize > this.rsize <;> simp [h, h6]

/-- With the handle open on the base file, every write taken whole and no call of
`roll`, the loop of `flush` leaves the base file holding what it held followed by the
lines in order. -/
theorem flushLoop_contents (lines : List GoString) (rest : List (Option GoString)) :
    ∀ (this : FilePrinter) (w : World) (wg : Int) (os : Nat → TurnEnv) (prior : GoString)
      (f : File),
      this.file = some f → f.closed = false → f.name = this.baseName →
      w.fs this.baseName = some prior →
      (f.append = true ∨ f.offset = prior.length) →
      (∀ i, i < lines.length → (os i).write = WriteOutcome.ok) →
      rollCount (this.flushLoop w wg (lines.map some ++ none :: rest) os).world.ops
        = rollCount w.ops →
      (this.flushLoop w wg (lines.map some ++ none :: rest) os).world.fs this.baseName
        = some (prior ++ concatLines lines) := by
  induction lines with
  | nil =>
    intro this w wg os prior f _ _ _ hprior _ _ _
    simpa [FilePrinter.flushLoop, concatLines] using hprior
  | cons s ls ih =>
    intro this w wg os prior f hfile hopen hname hprior hoff hok hroll
    rw [List.map_cons, List.cons_append, flushLoop_cons_some] at hroll ⊢
    have hos : os 0 = TurnEnv.mk (os 0).opens WriteOutcome.ok := by
      have h := hok 0 (by simp)
      cases hv : os 0 with
      | mk a b =>
        rw [hv] at h
        simp only at h
        rw [h]
    have hrot : ¬ this.csize > this.rsize := by
      intro hrot
      have hle := flushLoop_rollCount_le (ls.map some ++ none :: rest)
        (this.flushStep w s (os 0)).1 (this.flushStep w s (os 0)).2 wg (fun i => os (i + 1))
      rw [flushStep_rollCount, if_pos hrot] at hle
      omega
    rw [hos] at hroll ⊢
    rw [flushStep_keep_ok this w s prior f (os 0).opens hrot hfile hopen hname hprior hoff]
      at hroll ⊢
    have hcount : rollCount (w.ops ++ [FileOp.writeString s]) = rollCount w.ops := by
      simp [rollCount, List.count_append, List.count_cons]
    have := ih (FilePrinter.mk this.baseName
        (some (File.mk f.name f.append (prior.length + s.length) f.closed))
        this.rsize (wrapInt (this.csize + (s.length : Int))) this.backup)
      (World.mk (fun x => if x = f.name then some (prior ++ s) else w.fs x)
        (w.ops ++ [FileOp.writeString s])) wg
      (fun i => os (i + 1)) (prior ++ s)
      (File.mk f.name f.append (prior.length + s.length) f.closed) rfl hopen hname
      (by simp [hname]) (Or.inr (by simp)) (fun i hi => hok (i + 1) (by simp; omega))
      (by rw [hroll, hcount])
    simpa [concatLines, List.append_assoc] using this

/-- One turn of the writer loop, from a tracked count that is not negative or is the
poisoned `rsize + 1`, with the threshold's successor, the line's length and the count
plus the line's length within the 64-bit `int`: what becomes of the count. -/
theorem flushStep_csize (this : FilePrinter) (w : World) (s : GoString) (e : TurnEnv)
    (hinv : 0 ≤ this.csize ∨ this.csize = this.rsize + 1)
    (hrs : -2 ^ 63 ≤ this.rsize ∧ this.rsize + 1 < 2 ^ 63)
    (hs : (s.length : Int) < 2 ^ 63) (hfit : this.csize + (s.length : Int) < 2 ^ 63) :
    (¬ this.csize > this.rsize →
        0 ≤ this.csize
        ∧ this.checkfile w e.opens = (this, w)
        ∧ rollCount (this.flushStep w s e).2.ops = rollCount w.ops
        ∧ this.csize ≤ (this.flushStep w s e).1.csize
        ∧ ((this.flushStep w s e).1.csize = 0 → this.csize = 0)
        ∧ ((fileWriteString (this.checkfile w e.opens).1.file
              (this.checkfile w e.opens).2.fs s e.write).2.2.2 = true →
            this.csize < (this.flushStep w s e).1.csize))
    ∧ (this.csize > this.rsize →
        (this.checkfile w e.opens).1.csize = 0
        ∧ rollCount (this.flushStep w s e).2.ops = rollCount w.ops + 1)
    ∧ ((fileWriteString (this.checkfile w e.opens).1.file
          (this.checkfile w e.opens).2.fs s e.write).2.2.2 = true →
        (this.flushStep w s e).1.csize = this.rsize + 1)
    ∧ ((fileWriteString (this.checkfile w e.opens).1.file
          (this.checkfile w e.opens).2.fs s e.write).2.2.2 = false →
        (this.flushStep w s e).1.csize
          = (this.checkfile w e.opens).1.csize
            + (fileWriteString (this.checkfile w e.opens).1.file
                (this.checkfile w e.opens).2.fs s e.write).2.2.1)
    ∧ (0 ≤ (this.flushStep w s e).1.csize
        ∨ (this.flushStep w s e).1.csize = (this.flushStep w s e).1.rsize + 1) := by
  obtain ⟨hrs1, hcs1, _⟩ := checkfile_fields this w e.opens
  have hrs2 := flushStep_rsize this w s e
  have hn := fileWriteString_count (this.checkfile w e.opens).1.file
    (this.checkfile w e.opens).2.fs s e.write
  have hck : 0 ≤ (this.checkfile w e.opens).1.csize
      ∧ (this.checkfile w e.opens).1.csize + (s.length : Int) < 2 ^ 63 := by
    rw [hcs1]
    by_cases h : this.csize > this.rsize
    · rw [if_pos h]
      omega
    · rw [if_neg h]
      omega
  have hfail : (fileWriteString (this.checkfile w e.opens).1.file
      (this.checkfile w e.opens).2.fs s e.write).2.2.2 = true →
      (this.flushStep w s e).1.csize = this.rsize + 1 := by
    intro he
    simp only [FilePrinter.flushStep, he, if_true, hrs1]
    exact wrapInt_of_range _ (by omega) (by omega)
  have hgood : (fileWriteString (this.checkfile w e.opens).1.file
      (this.checkfile w e.opens).2.fs s e.write).2.2.2 = false →
      (this.flushStep w s e).1.csize = (this.checkfile w e.opens).1.csize
        + (fileWriteString (this.checkfile w e.opens).1.file
            (this.checkfile w e.opens).2.fs s e.write).2.2.1 := by
    intro he
    simp only [FilePrinter.flushStep, he, Bool.false_eq_true, if_false]
    exact wrapInt_of_range _ (by omega) (by omega)
  refine ⟨?_, ?_, hfail, hgood, ?_⟩
  rotate_left 2
  · cases he : (fileWriteString (this.checkfile w e.opens).1.file
        (this.checkfile w e.opens).2.fs s e.write).2.2.2
    · left
      rw [hgood he]
      omega
    · right
      rw [hfail he, hrs2]
  · intro h
    have h0 : 0 ≤ this.csize := by omega
    have hk := checkfile_keep this w e.opens h
    have hcs : (this.checkfile w e.opens).1.csize = this.csize := by rw [hk]
    have hcases : (this.flushStep w s e).1.csize = this.rsize + 1
        ∨ (this.flushStep w s e).1.csize = this.csize
          + (fileWriteString (this.checkfile w e.opens).1.file
              (this.checkfile w e.opens).2.fs s e.write).2.2.1 := by
      cases he : (fileWriteString (this.checkfile w e.opens).1.file
          (this.checkfile w e.opens).2.fs s e.write).2.2.2
      · right
        rw [hgood he, hcs]
      · left
        exact hfail he
    refine ⟨h0, hk, ?_, ?_, ?_, ?_⟩
    · rw [flushStep_rollCount, if_neg h]
      rfl
    · rcases hcases with hc | hc <;> rw [hc] <;> omega
    · rcases hcases with hc | hc <;> rw [hc] <;> omega
    · intro he
      rw [hfail he]
      omega
  · intro h
    refine ⟨by rw [hcs1, if_pos h], ?_⟩
    rw [flushStep_rollCount, if_pos h]

/-- Every turn of a run whose sums stay within the 64-bit `int` starts from a tracked
count that is not negative or is the poisoned `rsize + 1`, with the threshold the run
started with, when the run does. -/
theorem turns_inv (q : List (Option GoString)) :
    ∀ (this : FilePrinter) (w : World) (os : Nat → TurnEnv),
      (0 ≤ this.csize ∨ this.csize = this.rsize + 1) →
      (-2 ^ 63 ≤ this.rsize ∧ this.rsize + 1 < 2 ^ 63) →
      (∀ tn ∈ this.turns w q os,
        (tn.2.2.1.length : Int) < 2 ^ 63 ∧ tn.1.csize + (tn.2.2.1.length : Int) < 2 ^ 63) →
      ∀ tn ∈ this.turns w q os,
        (0 ≤ tn.1.csize ∨ tn.1.csize = tn.1.rsize + 1) ∧ tn.1.rsize = this.rsize := by
  induction q with
  | nil => intro this w os _ _ _ tn htn; simp [FilePrinter.turns] at htn
  | cons item rest ih =>
    intro this w os hinv hrs hfit tn htn
    cases item with
    | none => simp [FilePrinter.turns] at htn
    | some s =>
      have hcons : this.turns w (some s :: rest) os
          = (this, w, s, os 0)
            :: (this.flushStep w s (os 0)).1.turns (this.flushStep w s (os 0)).2 rest
                (fun i => os (i + 1)) := rfl
      rw [hcons] at htn hfit
      have hhead := hfit (this, w, s, os 0) (List.mem_cons_self _ _)
      rcases List.mem_cons.mp htn with rfl | htn
      · exact ⟨hinv, rfl⟩
      · have hnext := (flushStep_csize this w s (os 0) hinv hrs hhead.1 hhead.2).2.2.2.2
        have hr := flushStep_rsize this w s (os 0)
        have := ih _ _ _ hnext (by rw [hr]; exact hrs)
          (fun t ht => hfit t (List.mem_cons_of_mem _ ht)) tn htn
        exact ⟨this.1, by rw [this.2, hr]⟩

/-- The lines of the turns of a run are the lines queued ahead of the shutdown
marker, in order. -/
theorem turns_lines (lines : List GoString) (rest : List (Option GoString)) :
    ∀ (this : FilePrinter) (w : World) (os : Nat → TurnEnv),
      (this.turns w (lines.map some ++ none :: rest) os).map (fun tn => tn.2.2.1) = lines := by
  induction lines with
  | nil => intro this w os; rfl
  | cons s ls ih =>
    intro this w os
    have hcons : this.turns w (some s :: (ls.map some ++ none :: rest)) os
        = (this, w, s, os 0)
          :: (this.flushStep w s (os 0)).1.turns (this.flushStep w s (os 0)).2
              (ls.map some ++ none :: rest) (fun i => os (i + 1)) := rfl
    rw [List.map_cons, List.cons_append, hcons, List.map_cons, ih]

/-- The threshold `NewFilePrinter` sets is a 64-bit `int` and a multiple of 1024, so
its successor is within the 64-bit `int` too; the count it seeds is a file size. -/
theorem NewFilePrinter_range (cfg : FileConfig) (path : Option GoString)
    (opens stats : Bool) (start : GoString) (fs : FS) (p : FilePrinter) (fs1 : FS)
    (cap : Int) (q : List (Option GoString))
    (h : NewFilePrinter cfg path opens stats start fs = Construction.built p fs1 cap q) :
    p.rsize = wrapInt ((if cfg.SizeKB < 1 then 8192 else cfg.SizeKB) * 1024)
    ∧ -2 ^ 63 ≤ p.rsize ∧ p.rsize + 1 < 2 ^ 63 ∧ 0 ≤ p.csize
    ∧ q = [some start] ∧ cap = (if cfg.Maxrn < 1 then 1024 else cfg.Maxrn) := by
  unfold NewFilePrinter at h
  cases path with
  | none => simp at h
  | some baseName =>
    cases opens with
    | false => simp [osOpenFile] at h
    | true =>
      cases stats with
      | false => simp [osOpenFile] at h
      | true =>
        simp only [osOpenFile, if_true] at h
        injection h with h1 h2 h3 h4
        subst h1
        refine ⟨rfl, ?_, ?_, ?_, h4.symm, h3.symm⟩
        · simp only [wrapInt]
          omega
        · simp only [wrapInt]
          split_ifs <;> omega
        · simp only
          split <;> simp

/-! ## Lemmas: the writer goroutine and `Close` -/

theorem runSched_writer_stuck (os : Nat → TurnEnv) (σ : Sys) (h : writerStep os σ = σ) :
    ∀ n, runSched os (List.replicate n Pick.writer) σ = σ := by
  intro n
  induction n with
  | zero => rfl
  | succ k ih =>
    rw [List.replicate_succ]
    simp only [runSched, h, ih]

/-- The writer goroutine run on its own from inside the loop, for at least as many
steps as the channel holds items, ends where the loop of `flush` ends on those
items. -/
theorem writer_alone_loop (os : Nat → TurnEnv) (q : List (Option GoString)) :
    ∀ (σ : Sys) (n : Nat), σ.writer = WriterAt.looping → σ.ch = q → q.length ≤ n →
      (runSched os (List.replicate n Pick.writer) σ).printer
          = (σ.printer.flushLoop σ.world σ.wg q (fun i => os (σ.turn + i))).printer
      ∧ (runSched os (List.replicate n Pick.writer) σ).world
          = (σ.printer.flushLoop σ.world σ.wg q (fun i => os (σ.turn + i))).world
      ∧ (runSched os (List.replicate n Pick.writer) σ).wg
          = (σ.printer.flushLoop σ.world σ.wg q (fun i => os (σ.turn + i))).wg
      ∧ (runSched os (List.replicate n Pick.writer) σ).ch
          = (σ.printer.flushLoop σ.world σ.wg q (fun i => os (σ.turn + i))).queue
      ∧ (runSched os (List.replicate n Pick.writer) σ).writer
          = (if (σ.printer.flushLoop σ.world σ.wg q (fun i => os (σ.turn + i))).terminated
              then WriterAt.returned else WriterAt.looping) := by
  induction q with
  | nil =>
    intro σ n hw hch _
    have hstuck : writerStep os σ = σ := by
      simp only [writerStep, hw, hch]
    rw [runSched_writer_stuck os σ hstuck n]
    simp [FilePrinter.flushLoop, hch, hw]
  | cons item rest ih =>
    intro σ n hw hch hn
    obtain ⟨k, rfl⟩ : ∃ k, n = k + 1 := ⟨n - 1, by simp at hn; omega⟩
    rw [List.replicate_succ]
    simp only [runSched]
    cases item with
    | none =>
      have hstep : writerStep os σ
          = Sys.mk
            (FilePrinter.mk σ.printer.baseName (fileClose σ.printer.file) σ.printer.rsize
              σ.printer.csize σ.printer.backup)
            (World.mk σ.world.fs (σ.world.ops ++ [FileOp.close, FileOp.done]))
            rest σ.cap (σ.wg - 1) WriterAt.returned σ.closer σ.turn := by
        simp only [writerStep, hw, hch]
      rw [hstep, runSched_writer_stuck os _ rfl k]
      simp [FilePrinter.flushLoop]
    | some s =>
      have hstep : writerStep os σ
          = Sys.mk (σ.printer.flushStep σ.world s (os σ.turn)).1
            (σ.printer.flushStep σ.world s (os σ.turn)).2
            rest σ.cap σ.wg WriterAt.looping σ.closer (σ.turn + 1) := by
        simp only [writerStep, hw, hch]
      rw [hstep, flushLoop_cons_some]
      have hos : (fun i => (fun j => os (σ.turn + j)) (i + 1))
          = (fun i => os (σ.turn + 1 + i)) := by
        funext i
        show os (σ.turn + (i + 1)) = os (σ.turn + 1 + i)
        rw [Nat.add_assoc, Nat.add_comm 1 i]
      have := ih (Sys.mk (σ.printer.flushStep σ.world s (os σ.turn)).1
            (σ.printer.flushStep σ.world s (os σ.turn)).2
            rest σ.cap σ.wg WriterAt.looping σ.closer (σ.turn + 1)) k rfl rfl
            (by simp at hn; omega)
      simp only [Nat.add_zero] at this ⊢
      rw [hos]
      exact this

/-- The writer goroutine run on its own from its creation ends where `flush` ends:
`this.w.Add(1)` is its first step. -/
theorem writer_alone_flush (os : Nat → TurnEnv) (σ : Sys) (n : Nat)
    (hw : σ.writer = WriterAt.created) (hturn : σ.turn = 0) (hn : σ.ch.length ≤ n) :
    (runSched os (List.replicate (n + 1) Pick.writer) σ).printer
        = (σ.printer.flush σ.world σ.wg σ.ch os).printer
    ∧ (runSched os (List.replicate (n + 1) Pick.writer) σ).world
        = (σ.printer.flush σ.world σ.wg σ.ch os).world
    ∧ (runSched os (List.replicate (n + 1) Pick.writer) σ).wg
        = (σ.printer.flush σ.world σ.wg σ.ch os).wg
    ∧ (runSched os (List.replicate (n + 1) Pick.writer) σ).ch
        = (σ.printer.flush σ.world σ.wg σ.ch os).queue := by
  have hstep : writerStep os σ
      = Sys.mk σ.printer σ.world σ.ch σ.cap (σ.wg + 1) WriterAt.looping σ.closer σ.turn := by
    simp only [writerStep, hw]
  rw [List.replicate_succ]
  simp only [runSched, hstep]
  have := writer_alone_loop os σ.ch
    (Sys.mk σ.printer σ.world σ.ch σ.cap (σ.wg + 1) WriterAt.looping σ.closer σ.turn) n
    rfl rfl hn
  simp only [hturn, Nat.zero_add] at this ⊢
  unfold FilePrinter.flush
  exact ⟨this.1, this.2.1, this.2.2.1, this.2.2.2.1⟩

/-- Once the writer goroutine has run `this.w.Add(1)` before `Close` is entered, `Close`
cannot return before the writer has: under every schedule, a returned caller means a
returned writer. -/
theorem close_waits_once_added (os : Nat → TurnEnv) (sched : List Pick) :
    ∀ σ : Sys,
      (σ.writer ≠ WriterAt.created ∧ (σ.writer = WriterAt.looping → σ.wg = 1)
        ∧ (σ.writer = WriterAt.returned → σ.wg = 0)
        ∧ (σ.closer = CloserAt.returned → σ.writer = WriterAt.returned)) →
      ((runSched os sched σ).closer = CloserAt.returned →
        (runSched os sched σ).writer = WriterAt.returned) := by
  induction sched with
  | nil => intro σ h; exact h.2.2.2
  | cons pick rest ih =>
    intro σ h
    obtain ⟨h1, h2, h3, h4⟩ := h
    cases pick with
    | writer =>
      simp only [runSched]
      apply ih
      cases hw : σ.writer with
      | created => exact absurd hw h1
      | looping =>
        have hwg := h2 hw
        cases hch : σ.ch with
        | nil =>
          have hst : writerStep os σ = σ := by simp only [writerStep, hw, hch]
          rw [hst]
          exact ⟨h1, h2, h3, h4⟩
        | cons item tail =>
          cases item with
          | none =>
            simp only [writerStep, hw, hch]
            refine ⟨by simp, by simp, fun _ => by omega, by simp⟩
          | some s =>
            simp only [writerStep, hw, hch]
            refine ⟨by simp, fun _ => hwg, by simp, ?_⟩
            intro hc
            have := h4 hc
            rw [hw] at this
            exact absurd this (by simp)
      | returned =>
        have hst : writerStep os σ = σ := by simp only [writerStep, hw]
        rw [hst]
        exact ⟨h1, h2, h3, h4⟩
    | closer =>
      simp only [runSched]
      apply ih
      cases hc : σ.closer with
      | sending =>
        simp only [closerStep, hc]
        split_ifs
        · exact ⟨h1, h2, h3, by simp⟩
        · exact ⟨h1, h2, h3, fun h => by rw [hc] at h; exact absurd h (by simp)⟩
      | waiting =>
        simp only [closerStep, hc]
        split_ifs with hz
        · refine ⟨h1, h2, h3, fun _ => ?_⟩
          cases hw : σ.writer with
          | created => exact absurd hw h1
          | looping =>
            have hone := h2 hw
            omega
          | returned => rfl
        · exact ⟨h1, h2, h3, fun h => by rw [hc] at h; exact absurd h (by simp)⟩
      | returned =>
        have hst : closerStep σ = σ := by simp only [closerStep, hc]
        rw [hst]
        exact ⟨h1, h2, h3, h4⟩



theorem deliveries_printThenClose (str : GoString) (lp : List levPrinter) :
    deliveries (printThenClose str lp) = lp.map (fun n => (n.p, str)) := by
  induction lp with
  | nil => rfl
  | cons n rest ih => simp [printThenClose, deliveries, ih]

/-! ## The claims -/

/-- C1: on a dispatcher assembled by `NewBuilder` and any `AddPrinter` calls, whose
attachments are the console and the added sinks in insertion order, a call of `out`
or `outf` at level `lv` hands the one rendered line to exactly the attachments with
threshold `≤ lv`, each once, in insertion order (for `outf` the template is non-empty,
so that a line is rendered). An attachment with a threshold above `lv` is not among
them, and the root-threshold test passes whenever some attachment has threshold
`≤ lv`, so it suppresses nothing. -/
theorem dispatch_exact (consoleLev : lev) (adds : List (lev × Printer)) (t : Clock)
    (c : CallerInfo) (lv : lev) (args : List GoString) :
    (assemble consoleLev adds).lp
        = levPrinter.mk consoleLev Printer.console
          :: adds.map (fun a => levPrinter.mk a.1 a.2)
    ∧ (∃ line evs, Format t c lv args = some line
        ∧ (assemble consoleLev adds).out t c lv args = some evs
        ∧ deliveries evs
          = ((assemble consoleLev adds).lp.filter (fun n => decide (n.l ≤ lv))).map
              (fun n => (n.p, line)))
    ∧ (∀ (sprintf : GoString → List GoString → GoString) (format : GoString),
        format ≠ [] →
        ∃ line evs, Formatf sprintf t c lv format args = some line
          ∧ (assemble consoleLev adds).outf sprintf t c lv format args = some evs
          ∧ deliveries evs
            = ((assemble consoleLev adds).lp.filter (fun n => decide (n.l ≤ lv))).map
                (fun n => (n.p, line)))
    ∧ (∀ n ∈ (assemble consoleLev adds).lp, lv < n.l →
        n ∉ (assemble consoleLev adds).lp.filter (fun n => decide (n.l ≤ lv)))
    ∧ (∀ n ∈ (assemble consoleLev adds).lp, n.l ≤ lv →
        (assemble consoleLev adds).rootLev ≤ lv) := by
  refine ⟨assemble_lp consoleLev adds, ?_, ?_, ?_, ?_⟩
  · obtain ⟨line, hline⟩ := Format_total t c lv args
    exact ⟨line, _, hline, out_assemble consoleLev adds t c lv args line hline,
      deliveries_fanOut lv line _⟩
  · intro sprintf format hf
    obtain ⟨line, hline⟩ := Formatf_total sprintf t c lv format args hf
    exact ⟨line, _, hline,
      outf_assemble consoleLev adds sprintf t c lv format args line hline,
      deliveries_fanOut lv line _⟩
  · intro n _ hlt hmem
    have hle := (List.mem_filter.mp hmem).2
    simp only [decide_eq_true_eq] at hle
    linarith
  · intro n hn hle
    exact le_trans ((assemble_rootLev_le consoleLev adds).2 n hn) hle

/-- C1, at `NewBuilder(INFO).AddPrinter(DEBUG, sink 1).AddPrinter(ERROR, sink 2)` and a
call at level WARN with the template `x`. -/
theorem dispatch_exact_witness :
    "x".toList ≠ []
    ∧ (∃ line evs, Formatf verbatim t0 c0 LevWARN "x".toList [] = some line
        ∧ (assemble LevINFO [(LevDEBUG, Printer.sink 1), (LevERROR, Printer.sink 2)]).outf
            verbatim t0 c0 LevWARN "x".toList [] = some evs
        ∧ deliveries evs
          = ((assemble LevINFO [(LevDEBUG, Printer.sink 1), (LevERROR, Printer.sink 2)]).lp.filter
              (fun n => decide (n.l ≤ LevWARN))).map (fun n => (n.p, line))) :=
  ⟨by decide,
    (dispatch_exact LevINFO [(LevDEBUG, Printer.sink 1), (LevERROR, Printer.sink 2)]
      t0 c0 LevWARN []).2.2.1 verbatim "x".toList (by decide)⟩

/-- C2: `NewBuilder(LevINFO).Build()` caches the root threshold DEBUG, while the
smallest threshold among its attachments is INFO. -/
theorem rootLev_not_minimum :
    (assemble LevINFO []).rootLev = LevDEBUG
    ∧ minThreshold (assemble LevINFO []) = some LevINFO
    ∧ (assemble LevINFO []).lp = [levPrinter.mk LevINFO Printer.console] := by
  decide

/-- C6, as stated, fails: on `NewBuilder(DEBUG).AddPrinter(DEBUG, sink 1)` a FATAL call
closes the console before the line reaches sink 1, so the closes do not all come
after the deliveries. -/
theorem fatal_close_interleaved :
    (assemble LevDEBUG [(LevDEBUG, Printer.sink 1)]).out t0 c0 LevFATAL ["x".toList]
      = some [Event.print Printer.console
                "[11-04 09:05:07.123][FATAL] x (app/main.go:42)\r\n".toList,
              Event.close Printer.console,
              Event.print (Printer.sink 1)
                "[11-04 09:05:07.123][FATAL] x (app/main.go:42)\r\n".toList,
              Event.close (Printer.sink 1)]
    ∧ ((assemble LevDEBUG [(LevDEBUG, Printer.sink 1)]).out t0 c0 LevFATAL ["x".toList]).map
        closesLast = some false := by
  decide

/-- C6, amended: on an assembled dispatcher a FATAL call of `out` or `outf` walks the
attachments with threshold `≤ FATAL` in insertion order and, for each in turn, hands
it the rendered line and then closes it: each of them is closed once, after its own
delivery. When every threshold is on the level scale (`≤ FATAL`) these are all the
attachments. -/
theorem fatal_print_then_close (consoleLev : lev) (adds : List (lev × Printer))
    (t : Clock) (c : CallerInfo) (args : List GoString) :
    (∃ line, Format t c LevFATAL args = some line
      ∧ (assemble consoleLev adds).out t c LevFATAL args
        = some (printThenClose line (eligible LevFATAL (assemble consoleLev adds).lp)))
    ∧ (∀ (sprintf : GoString → List GoString → GoString) (format : GoString),
        format ≠ [] →
        ∃ line, Formatf sprintf t c LevFATAL format args = some line
          ∧ (assemble consoleLev adds).outf sprintf t c LevFATAL format args
            = some (printThenClose line (eligible LevFATAL (assemble consoleLev adds).lp)))
    ∧ (∀ line, closes (printThenClose line (eligible LevFATAL (assemble consoleLev adds).lp))
          = (eligible LevFATAL (assemble consoleLev adds).lp).map (fun n => n.p)
        ∧ deliveries (printThenClose line (eligible LevFATAL (assemble consoleLev adds).lp))
          = (eligible LevFATAL (assemble consoleLev adds).lp).map (fun n => (n.p, line)))
    ∧ ((∀ n ∈ (assemble consoleLev adds).lp, n.l ≤ LevFATAL) →
        eligible LevFATAL (assemble consoleLev adds).lp = (assemble consoleLev adds).lp) := by
  refine ⟨?_, ?_, fun line => ⟨closes_printThenClose line _, deliveries_printThenClose line _⟩,
    fun hscale => eligible_all _ _ hscale⟩
  · obtain ⟨line, hline⟩ := Format_total t c LevFATAL args
    refine ⟨line, hline, ?_⟩
    rw [out_assemble consoleLev adds t c LevFATAL args line hline, fanOut_fatal]
  · intro sprintf format hf
    obtain ⟨line, hline⟩ := Formatf_total sprintf t c LevFATAL format args hf
    refine ⟨line, hline, ?_⟩
    rw [outf_assemble consoleLev adds sprintf t c LevFATAL format args line hline,
      fanOut_fatal]

/-- C6 amended, at `NewBuilder(INFO).AddPrinter(DEBUG, sink 1)` and the template `x`. -/
theorem fatal_print_then_close_witness :
    ("x".toList ≠ []
      ∧ ∀ n ∈ (assemble LevINFO [(LevDEBUG, Printer.sink 1)]).lp, n.l ≤ LevFATAL)
    ∧ (∃ line, Formatf verbatim t0 c0 LevFATAL "x".toList [] = some line
        ∧ (assemble LevINFO [(LevDEBUG, Printer.sink 1)]).outf verbatim t0 c0 LevFATAL
            "x".toList []
          = some (printThenClose line
              (eligible LevFATAL (assemble LevINFO [(LevDEBUG, Printer.sink 1)]).lp)))
    ∧ eligible LevFATAL (assemble LevINFO [(LevDEBUG, Printer.sink 1)]).lp
        = (assemble LevINFO [(LevDEBUG, Printer.sink 1)]).lp :=
  ⟨⟨by decide, by decide⟩,
    (fatal_print_then_close LevINFO [(LevDEBUG, Printer.sink 1)] t0 c0 []).2.1
      verbatim "x".toList (by decide),
    (fatal_print_then_close LevINFO [(LevDEBUG, Printer.sink 1)] t0 c0 []).2.2.2
      (by decide)⟩

/-- C8: with all goroutines captured (base 1000) and a trace of 2001 bytes, which is
shorter than every buffer after the first, `printStack` hands the sinks only the
first 2000 bytes: the loop stops after its first capture. -/
theorem printStack_truncates :
    (assemble LevDEBUG []).printStack true (List.replicate 2001 'g')
      = some [Event.print Printer.console (List.replicate 2000 'g')]
    ∧ List.replicate 2000 'g' ≠ List.replicate 2001 'g'
    ∧ (List.replicate 2001 'g').length < 1000 * 32 := by
  have hmin : min 2000 2001 = 2000 := by decide
  refine ⟨?_, ?_, ?_⟩
  · rw [printStack_eq, assemble_lp]
    simp only [if_true, List.map_cons, List.map_nil, List.take_replicate, hmin]
  · intro h
    have hlen := congrArg List.length h
    rw [List.length_replicate, List.length_replicate] at hlen
    exact absurd hlen (by decide)
  · rw [List.length_replicate]
    decide

/-- C9, as stated, fails. For `Format` the value `hello` with a trailing newline
keeps that newline in the message field, since the newline stripped is the one
`Sprintln` appends; for `Formatf` the template that is a lone newline renders a line
while the same template without the newline panics. -/
theorem trailing_newline_not_always_stripped :
    Format t0 c0 LevINFO ["hello\n".toList]
      = some "[11-04 09:05:07.123][INFO ] hello\n (app/main.go:42)\r\n".toList
    ∧ Format t0 c0 LevINFO ["hello".toList]
      = some "[11-04 09:05:07.123][INFO ] hello (app/main.go:42)\r\n".toList
    ∧ Format t0 c0 LevINFO ["hello\n".toList] ≠ Format t0 c0 LevINFO ["hello".toList]
    ∧ Formatf verbatim t0 c0 LevINFO "\n".toList []
      = some "[11-04 09:05:07.123][INFO ]  (app/main.go:42)\r\n".toList
    ∧ Formatf verbatim t0 c0 LevINFO "".toList [] = none := by
  decide

/-- C9, amended: `combine` strips exactly one trailing newline from the rendered
message it is given, so a rendered message `s` without a trailing newline and `s`
followed by a newline give the same line, whose message field is `s` and which ends
in the call-site suffix and one CR LF. A template that is a non-empty `format`
without trailing newline, followed by one newline, renders through `Formatf` the same
line as `format`. For `Format` the rendered message is `Sprintln`'s, so the newline
stripped is the one `Sprintln` appends and the message field is the values joined by
single spaces. -/
theorem one_trailing_newline_stripped (t : Clock) (c : CallerInfo) (lv : lev) :
    ∃ fl, callSite c = some fl
      ∧ (∀ s : GoString,
          combine t c lv (s ++ ['\n']) = some (linePrefix t lv ++ s ++ lineSuffix fl))
      ∧ (∀ s : GoString, s.getLast? ≠ some '\n' →
          combine t c lv s = some (linePrefix t lv ++ s ++ lineSuffix fl)
          ∧ combine t c lv (s ++ ['\n']) = combine t c lv s)
      ∧ (∀ (sprintf : GoString → List GoString → GoString) (format : GoString)
          (args : List GoString), format ≠ [] → format.getLast? ≠ some '\n' →
          Formatf sprintf t c lv (format ++ ['\n']) args = Formatf sprintf t c lv format args
          ∧ Formatf sprintf t c lv format args
            = some (linePrefix t lv ++ dropNewline (sprintf format args) ++ lineSuffix fl))
      ∧ (∀ args : List GoString, Format t c lv args
          = some (linePrefix t lv ++ (" ".toList).intercalate args ++ lineSuffix fl))
      ∧ ")\r\n".toList <:+ lineSuffix fl := by
  obtain ⟨fl, hfl1, hc⟩ := combine_eq t c
  have hdrop : ∀ x : GoString, x.getLast? ≠ some '\n' → dropNewline x = x := by
    intro x hx
    simp [dropNewline, hx]
  have hnl : ∀ s : GoString,
      combine t c lv (s ++ ['\n']) = some (linePrefix t lv ++ s ++ lineSuffix fl) := by
    intro s
    rw [hc, dropNewline_concat, if_pos rfl]
  refine ⟨fl, hfl1, hnl, ?_, ?_, ?_, ?_⟩
  · intro s hs
    have h1 : combine t c lv s = some (linePrefix t lv ++ s ++ lineSuffix fl) := by
      rw [hc, hdrop s hs]
    exact ⟨h1, by rw [hnl, h1]⟩
  · intro sprintf format args hf hfl
    have hF : Formatf sprintf t c lv format args
        = combine t c lv (sprintf format args) := by
      rcases List.eq_nil_or_concat format with h | ⟨f, a, h⟩
      · exact absurd h hf
      · rw [List.concat_eq_append] at h
        subst h
        have ha : a ≠ '\n' := by
          intro ha
          apply hfl
          simp [ha]
        rw [Formatf_concat, if_neg ha]
    exact ⟨by rw [Formatf_concat, if_pos rfl, hF], by rw [hF, hc]⟩
  · intro args
    unfold Format Sprintln
    rw [hc, dropNewline_concat, if_pos rfl]
  · unfold lineSuffix
    exact List.suffix_append _ _

/-- C9 amended, at the message and the template `hello`. -/
theorem one_trailing_newline_stripped_witness :
    ("hello".toList.getLast? ≠ some '\n' ∧ "hello".toList ≠ [])
    ∧ ∃ fl, callSite c0 = some fl
      ∧ (combine t0 c0 LevINFO "hello".toList
            = some (linePrefix t0 LevINFO ++ "hello".toList ++ lineSuffix fl)
          ∧ combine t0 c0 LevINFO ("hello".toList ++ ['\n'])
            = combine t0 c0 LevINFO "hello".toList)
      ∧ (Formatf verbatim t0 c0 LevINFO ("hello".toList ++ ['\n']) []
            = Formatf verbatim t0 c0 LevINFO "hello".toList []
          ∧ Formatf verbatim t0 c0 LevINFO "hello".toList []
            = some (linePrefix t0 LevINFO ++ dropNewline (verbatim "hello".toList [])
                ++ lineSuffix fl)) :=
  ⟨⟨by decide, by decide⟩,
    (one_trailing_newline_stripped t0 c0 LevINFO).elim (fun fl h =>
      ⟨fl, h.1, h.2.2.1 "hello".toList (by decide),
        h.2.2.2.1 verbatim "hello".toList [] (by decide) (by decide)⟩)⟩

/-- C10: `Formatf` panics on its index expression exactly when the template is empty,
and for a non-empty template renders a line; `combine` never panics, whatever the
message, its slice bound lying within the message; and on a dispatcher a call of
`outf` that passes the root-threshold test panics exactly when the template is
empty. -/
theorem Formatf_panics_iff_empty (sprintf : GoString → List GoString → GoString)
    (t : Clock) (c : CallerInfo) (lv : lev) (format : GoString) (args : List GoString) :
    (Formatf sprintf t c lv format args = none ↔ format = [])
    ∧ (format = [] → goIndex format ((format.length : Int) - 1) = none)
    ∧ (format ≠ [] → ∃ fl, callSite c = some fl
        ∧ Formatf sprintf t c lv format args
          = some (linePrefix t lv ++ dropNewline (sprintf (dropNewline format) args)
              ++ lineSuffix fl))
    ∧ (∀ msg : GoString, ∃ ml, trimLen msg = some ml ∧ 0 ≤ ml ∧ ml ≤ (msg.length : Int)
        ∧ ∃ line, combine t c lv msg = some line)
    ∧ (∀ s : Logger, s.rootLev ≤ lv →
        (s.outf sprintf t c lv format args = none ↔ format = [])) := by
  obtain ⟨fl, hfl1, hc⟩ := combine_eq t c
  have hsome : format ≠ [] → Formatf sprintf t c lv format args
      = some (linePrefix t lv ++ dropNewline (sprintf (dropNewline format) args)
          ++ lineSuffix fl) := by
    intro hf
    rcases List.eq_nil_or_concat format with h | ⟨f, a, h⟩
    · exact absurd h hf
    · rw [List.concat_eq_append] at h
      subst h
      rw [Formatf_concat, hc, dropNewline_concat]
  have hiff : Formatf sprintf t c lv format args = none ↔ format = [] := by
    constructor
    · intro h
      by_contra hf
      rw [hsome hf] at h
      exact Option.noConfusion h
    · intro h
      subst h
      exact Formatf_nil sprintf t c lv args
  refine ⟨hiff, ?_, fun hf => ⟨fl, hfl1, hsome hf⟩, ?_, ?_⟩
  · intro h
    subst h
    exact goIndex_nil _
  · intro msg
    obtain ⟨ml, h1, h2⟩ := trimLen_slice msg
    refine ⟨ml, h1, ?_, ?_, _, hc lv msg⟩
    · by_contra hneg
      simp [goSliceTo, hneg] at h2
    · by_contra hneg
      simp [goSliceTo, hneg] at h2
  · intro s hroot
    unfold Logger.outf
    rw [if_pos hroot]
    constructor
    · intro h
      by_contra hf
      rw [hsome hf] at h
      simp at h
    · intro h
      subst h
      simp [Formatf_nil]

/-- C10, at `NewBuilder(DEBUG).Build()`, level INFO and the template `x`. -/
theorem Formatf_panics_iff_empty_witness :
    ((assemble LevDEBUG []).rootLev ≤ LevINFO ∧ "x".toList ≠ [])
    ∧ ((assemble LevDEBUG []).outf verbatim t0 c0 LevINFO "x".toList [] = none
        ↔ "x".toList = [])
    ∧ (∃ fl, callSite c0 = some fl
        ∧ Formatf verbatim t0 c0 LevINFO "x".toList []
          = some (linePrefix t0 LevINFO ++ dropNewline (verbatim (dropNewline "x".toList) [])
              ++ lineSuffix fl)) :=
  ⟨⟨by decide, by decide⟩,
    (Formatf_panics_iff_empty verbatim t0 c0 LevINFO "x".toList []).2.2.2.2
      (assemble LevDEBUG []) (by decide),
    (Formatf_panics_iff_empty verbatim t0 c0 LevINFO "x".toList []).2.2.1 (by decide)⟩

/-- C4: over the file system as a map from names to contents, one `roll` with a
positive retention `backup` leaves the base path absent, slot 1 holding what the base
file held, slot `i + 1` holding what slot `i` held (absent if slot `i` was absent) for
`1 ≤ i < backup`, so that what slot `backup` held is gone, and every other file as it
was. -/
theorem roll_shifts_backups (this : FilePrinter) (fs : FS) (h : 0 < this.backup) :
    this.roll fs this.baseName = none
    ∧ this.roll fs (slot this.baseName 1) = fs this.baseName
    ∧ (∀ i : Nat, 1 ≤ i → (i : Int) < this.backup →
        this.roll fs (slot this.baseName (i + 1)) = fs (slot this.baseName i))
    ∧ (∀ x, x ≠ this.baseName
        → (∀ i : Nat, 1 ≤ i → (i : Int) ≤ this.backup → x ≠ slot this.baseName i)
        → this.roll fs x = fs x) := by
  obtain ⟨N, hN⟩ : ∃ N : Nat, this.backup = ((N + 1 : Nat) : Int) :=
    ⟨(this.backup - 1).toNat, by omega⟩
  have hb0 : this.backup ≠ 0 := by omega
  have hk : (this.backup - 1).toNat = N := by omega
  have hroll : this.roll fs
      = osRename (rollLoop this.baseName N (osRemove fs (slot this.baseName (N + 1))))
          this.baseName (slot this.baseName 1) := by
    unfold FilePrinter.roll
    rw [if_neg hb0, hk, slot_one, hN]
    rfl
  have hfree : osRemove fs (slot this.baseName (N + 1)) (slot this.baseName (N + 1)) = none := by
    simp [osRemove]
  obtain ⟨h1, h2, h3⟩ := rollLoop_spec this.baseName N _ hfree
  have hbase : rollLoop this.baseName N (osRemove fs (slot this.baseName (N + 1))) this.baseName
      = fs this.baseName := by
    rw [h3 _ (fun j _ _ => base_ne_slot _ j)]
    simp [osRemove, base_ne_slot]
  have hslot1 : rollLoop this.baseName N (osRemove fs (slot this.baseName (N + 1)))
      (slot this.baseName 1) = none := by
    rcases Nat.eq_zero_or_pos N with hz | hp
    · subst hz
      exact hfree
    · exact h2 hp
  rw [hroll]
  refine ⟨?_, ?_, ?_, ?_⟩
  · rw [osRename_apply, if_neg (base_ne_slot _ 1), if_pos rfl]
  · rw [osRename_apply, if_pos rfl, hbase]
    cases hsrc : fs this.baseName with
    | none => simpa using hslot1
    | some d => rfl
  · intro i hi1 hi2
    have n1 : slot this.baseName (i + 1) ≠ slot this.baseName 1 := fun h => by
      have := slot_injective _ _ _ h
      omega
    rw [osRename_apply, if_neg n1, if_neg (fun h => base_ne_slot _ _ h.symm),
      h1 i hi1 (by omega)]
    have n2 : slot this.baseName i ≠ slot this.baseName (N + 1) := fun h => by
      have := slot_injective _ _ _ h
      omega
    simp [osRemove, n2]
  · intro x hx hslots
    rw [osRename_apply, if_neg (hslots 1 (by omega) (by omega)), if_neg hx,
      h3 x (fun j hj1 hj2 => hslots j hj1 (by omega))]
    have n3 : x ≠ slot this.baseName (N + 1) := hslots (N + 1) (by omega) (by omega)
    simp [osRemove, n3]


/-- C4, at retention 2 over a file system with the active file and one backup. -/
theorem roll_shifts_backups_witness :
    0 < p0.backup
    ∧ (p0.roll fs0 p0.baseName = none
      ∧ p0.roll fs0 (slot p0.baseName 1) = fs0 p0.baseName
      ∧ (∀ i : Nat, 1 ≤ i → (i : Int) < p0.backup →
          p0.roll fs0 (slot p0.baseName (i + 1)) = fs0 (slot p0.baseName i))
      ∧ (∀ x, x ≠ p0.baseName
          → (∀ i : Nat, 1 ≤ i → (i : Int) ≤ p0.backup → x ≠ slot p0.baseName i)
          → p0.roll fs0 x = fs0 x)) :=
  ⟨by decide, roll_shifts_backups p0 fs0 (by decide)⟩

/-- C3: one turn of the writer loop on a dequeued line calls `roll` exactly when the
tracked byte count before it is strictly over the threshold `rsize`, and then once:
the calls are sync, close, roll, open and then the write, and `roll` leaves the base
path absent. When the system grants the open, the file opened at the base path is
fresh and empty, so a write taken whole (of a line whose length is an `int`) leaves
the base file holding just the line and the tracked count equal to the line's length;
when it refuses the open the write fails. The threshold does not change, and
`NewFilePrinter`, when it builds the sink, sets it to `SizeKB * 1024` (for `SizeKB`
from 1 up to the range of the 64-bit `int`; a `SizeKB` below 1 is first replaced by
the default 8192); it builds the sink when the path is settled and the open and the
stat succeed, and returns the error when the open fails. -/
theorem flushStep_rotates_iff (this : FilePrinter) (w : World) (s : GoString)
    (e : TurnEnv) :
    (rollCount (this.flushStep w s e).2.ops = rollCount w.ops + 1
        ↔ this.csize > this.rsize)
    ∧ (rollCount (this.flushStep w s e).2.ops = rollCount w.ops
        ↔ ¬ this.csize > this.rsize)
    ∧ (this.csize > this.rsize →
        (this.flushStep w s e).2.ops
          = w.ops ++ [FileOp.sync, FileOp.close, FileOp.roll, FileOp.openFile,
              FileOp.writeString s]
        ∧ this.roll w.fs this.baseName = none
        ∧ (e.opens = true →
            (this.checkfile w e.opens).2.fs
                = (fun x => if x = this.baseName then some [] else this.roll w.fs x)
            ∧ (this.checkfile w e.opens).1.file = some (File.mk this.baseName false 0 false)
            ∧ (e.write = WriteOutcome.ok → (s.length : Int) < 2 ^ 63 →
                (this.flushStep w s e).2.fs this.baseName = some s
                ∧ (this.flushStep w s e).1.csize = (s.length : Int)
                ∧ ∀ x, x ≠ this.baseName →
                    (this.flushStep w s e).2.fs x = this.roll w.fs x))
        ∧ (e.opens = false →
            (this.checkfile w e.opens).1.file = none
            ∧ (fileWriteString (this.checkfile w e.opens).1.file
                (this.checkfile w e.opens).2.fs s e.write).2.2.2 = true
            ∧ (this.flushStep w s e).1.csize = wrapInt (this.rsize + 1)))
    ∧ (¬ this.csize > this.rsize →
        (this.flushStep w s e).2.ops = w.ops ++ [FileOp.writeString s])
    ∧ (this.flushStep w s e).1.rsize = this.rsize
    ∧ (∀ (cfg : FileConfig) (path : Option GoString) (opens stats : Bool)
        (start : GoString) (fs : FS) (p : FilePrinter) (fs1 : FS) (cap : Int)
        (q : List (Option GoString)),
        NewFilePrinter cfg path opens stats start fs = Construction.built p fs1 cap q →
        (1 ≤ cfg.SizeKB → cfg.SizeKB * 1024 < 2 ^ 63 → p.rsize = cfg.SizeKB * 1024)
        ∧ (cfg.SizeKB < 1 → p.rsize = 8192 * 1024))
    ∧ (∀ (cfg : FileConfig) (path start : GoString) (fs : FS),
        ∃ p fs1 cap q,
          NewFilePrinter cfg (some path) true true start fs = Construction.built p fs1 cap q)
    ∧ (∀ (cfg : FileConfig) (path : Option GoString) (stats : Bool) (start : GoString)
        (fs : FS), NewFilePrinter cfg path false stats start fs = Construction.failed) := by
  refine ⟨?_, ?_, ?_, ?_, flushStep_rsize this w s e, ?_, ?_, ?_⟩
  · rw [flushStep_rollCount]
    by_cases h : this.csize > this.rsize <;> simp [h]
  · rw [flushStep_rollCount]
    by_cases h : this.csize > this.rsize <;> simp [h]
  · intro h
    refine ⟨?_, roll_base_absent this w.fs, ?_, ?_⟩
    · rw [flushStep_ops, if_pos h]
      simp
    · intro ho
      rw [ho]
      refine ⟨by rw [checkfile_rotate_open this w h], by rw [checkfile_rotate_open this w h], ?_⟩
      intro hw hlen
      have hwr := WriteString_ok_open (File.mk this.baseName false 0 false)
        (fun x => if x = this.baseName then some [] else this.roll w.fs x) s []
        rfl (by simp) (Or.inr rfl)
      have he : e = TurnEnv.mk true WriteOutcome.ok := by
        cases e with
        | mk a b =>
          simp only at ho hw
          rw [ho, hw]
      rw [he]
      unfold FilePrinter.flushStep
      rw [checkfile_rotate_open this w h]
      simp only [fileWriteString, hwr]
      refine ⟨by simp, ?_, ?_⟩
      · simp only [Bool.false_eq_true, if_false, Int.zero_add]
        exact wrapInt_of_range _ (by omega) hlen
      · intro x hx
        simp [hx]
    · intro ho
      have he : e = TurnEnv.mk false e.write := by
        cases e with
        | mk a b =>
          simp only at ho
          rw [ho]
      rw [he]
      refine ⟨by rw [checkfile_rotate_fail this w h], by
        rw [checkfile_rotate_fail this w h]; rfl, ?_⟩
      unfold FilePrinter.flushStep
      simp only [checkfile_rotate_fail this w h, fileWriteString, if_true]
  · intro h
    rw [flushStep_ops, if_neg h]
    simp
  · intro cfg path opens stats start fs p fs1 cap q hb
    have hr := (NewFilePrinter_range cfg path opens stats start fs p fs1 cap q hb).1
    constructor
    · intro h1 h2
      rw [hr, if_neg (by omega)]
      exact wrapInt_of_range _ (by omega) h2
    · intro h1
      rw [hr, if_pos h1]
      exact wrapInt_of_range _ (by omega) (by omega)
  · intro cfg path start fs
    exact ⟨_, _, _, _, rfl⟩
  · intro cfg path stats start fs
    cases path <;> rfl

/-- C3, at a sink 2000 bytes into a generation with threshold 1024, and a
configuration of 1 KB. -/
theorem flushStep_rotates_iff_witness :
    (p0.csize > p0.rsize ∧ (TurnEnv.mk true WriteOutcome.ok).opens = true
      ∧ (TurnEnv.mk true WriteOutcome.ok).write = WriteOutcome.ok
      ∧ ("line".toList.length : Int) < 2 ^ 63)
    ∧ (p0.flushStep w0 "line".toList (TurnEnv.mk true WriteOutcome.ok)).2.ops
        = w0.ops ++ [FileOp.sync, FileOp.close, FileOp.roll, FileOp.openFile,
            FileOp.writeString "line".toList]
    ∧ (p0.flushStep w0 "line".toList (TurnEnv.mk true WriteOutcome.ok)).2.fs p0.baseName
        = some "line".toList
    ∧ (p0.flushStep w0 "line".toList (TurnEnv.mk true WriteOutcome.ok)).1.csize
        = ("line".toList.length : Int) :=
  ⟨⟨by decide, rfl, rfl, by decide⟩,
    ((flushStep_rotates_iff p0 w0 "line".toList (TurnEnv.mk true WriteOutcome.ok)).2.2.1
      (by decide)).1,
    ((((flushStep_rotates_iff p0 w0 "line".toList (TurnEnv.mk true WriteOutcome.ok)).2.2.1
      (by decide)).2.2.1 rfl).2.2 rfl (by decide)).1,
    ((((flushStep_rotates_iff p0 w0 "line".toList (TurnEnv.mk true WriteOutcome.ok)).2.2.1
      (by decide)).2.2.1 rfl).2.2 rfl (by decide)).2.1⟩

/-- C5: `NewFilePrinter(FileConfig{})` puts the start line on the channel (capacity
1024) and starts the writer goroutine; a caller that goes on to call `Close`, and is
run before the writer has made its first step `this.w.Add(1)`, sends the marker and
finds the wait group's counter zero, so `Close` returns with the start line still on
the channel and nothing written; the writer writes the line and closes the file only
afterwards. Had the writer run `this.w.Add(1)` first, the caller would be held in
`this.w.Wait()`. -/
theorem close_returns_before_drain :
    (afterNew (NewFilePrinter cfg0 (some "app.log".toList) true true startLine fs0)).map
        (fun σ => observe (runSched okEnv [Pick.closer, Pick.closer] σ))
      = some (Seen.mk CloserAt.returned WriterAt.created [some startLine, none] 0 []
          (some "new".toList))
    ∧ (afterNew (NewFilePrinter cfg0 (some "app.log".toList) true true startLine fs0)).map
        (fun σ => observe (runSched okEnv
          [Pick.closer, Pick.closer, Pick.writer, Pick.writer, Pick.writer] σ))
      = some (Seen.mk CloserAt.returned WriterAt.returned [] 0
          [FileOp.writeString startLine, FileOp.close, FileOp.done]
          (some ("new".toList ++ startLine)))
    ∧ (afterNew (NewFilePrinter cfg0 (some "app.log".toList) true true startLine fs0)).map
        (fun σ => observe (runSched okEnv [Pick.writer, Pick.closer, Pick.closer] σ))
      = some (Seen.mk CloserAt.waiting WriterAt.looping [some startLine, none] 1 []
          (some "new".toList)) := by
  decide

/-- C7: in every run of the writer loop from a tracked byte count that is not
negative, with the threshold's successor within the 64-bit `int` (as it is for every
threshold `NewFilePrinter` sets) and, in every turn, the line's length and the count
plus the line's length within it (a file's size is), every turn that does not call
`roll` starts from a count that is not negative and never lowers it (`checkfile`
leaves the state as it was, so the count is not reset, and it cannot end at zero
unless it started there; a failed write poisons it to `rsize + 1`, which is above
it); every turn that calls `roll` sets the count to 0 in `checkfile` before the write;
and in every turn the count ends at `rsize + 1` after a failed write, and otherwise at
the count `checkfile` left plus the bytes written. -/
theorem csize_monotone_between_rotations (this : FilePrinter) (w : World)
    (q : List (Option GoString)) (os : Nat → TurnEnv) (h0 : 0 ≤ this.csize)
    (hrs : -2 ^ 63 ≤ this.rsize ∧ this.rsize + 1 < 2 ^ 63)
    (hfit : ∀ tn ∈ this.turns w q os,
      (tn.2.2.1.length : Int) < 2 ^ 63 ∧ tn.1.csize + (tn.2.2.1.length : Int) < 2 ^ 63) :
    (∀ (p : FilePrinter) (v : World) (s : GoString) (e : TurnEnv),
      (p, v, s, e) ∈ this.turns w q os →
      (¬ p.csize > p.rsize →
          0 ≤ p.csize
          ∧ p.checkfile v e.opens = (p, v)
          ∧ rollCount (p.flushStep v s e).2.ops = rollCount v.ops
          ∧ p.csize ≤ (p.flushStep v s e).1.csize
          ∧ ((p.flushStep v s e).1.csize = 0 → p.csize = 0)
          ∧ ((fileWriteString (p.checkfile v e.opens).1.file
                (p.checkfile v e.opens).2.fs s e.write).2.2.2 = true →
              p.csize < (p.flushStep v s e).1.csize))
      ∧ (p.csize > p.rsize →
          (p.checkfile v e.opens).1.csize = 0
          ∧ rollCount (p.flushStep v s e).2.ops = rollCount v.ops + 1)
      ∧ ((fileWriteString (p.checkfile v e.opens).1.file
            (p.checkfile v e.opens).2.fs s e.write).2.2.2 = true →
          (p.flushStep v s e).1.csize = p.rsize + 1)
      ∧ ((fileWriteString (p.checkfile v e.opens).1.file
            (p.checkfile v e.opens).2.fs s e.write).2.2.2 = false →
          (p.flushStep v s e).1.csize
            = (p.checkfile v e.opens).1.csize
              + (fileWriteString (p.checkfile v e.opens).1.file
                  (p.checkfile v e.opens).2.fs s e.write).2.2.1))
    ∧ (∀ (cfg : FileConfig) (path : Option GoString) (opens stats : Bool)
        (start : GoString) (fs : FS) (p : FilePrinter) (fs1 : FS) (cap : Int)
        (k : List (Option GoString)),
        NewFilePrinter cfg path opens stats start fs = Construction.built p fs1 cap k →
        -2 ^ 63 ≤ p.rsize ∧ p.rsize + 1 < 2 ^ 63 ∧ 0 ≤ p.csize) := by
  constructor
  · intro p v s e hmem
    have hinv := turns_inv q this w os (Or.inl h0) hrs hfit (p, v, s, e) hmem
    have hf := hfit (p, v, s, e) hmem
    obtain ⟨h1, h2, h3, h4, _⟩ := flushStep_csize p v s e hinv.1
      (by rw [hinv.2]; exact hrs) hf.1 hf.2
    exact ⟨h1, h2, h3, h4⟩
  · intro cfg path opens stats start fs p fs1 cap k hb
    have hr := NewFilePrinter_range cfg path opens stats start fs p fs1 cap k hb
    exact ⟨hr.2.1, hr.2.2.1, hr.2.2.2.1⟩

/-- C7, at a run of one line and the marker from a sink 3 bytes into a generation
with threshold 1024, whose write fails. -/
theorem csize_monotone_between_rotations_witness :
    (0 ≤ p1.csize ∧ (-2 ^ 63 ≤ p1.rsize ∧ p1.rsize + 1 < 2 ^ 63)
      ∧ (∀ tn ∈ p1.turns w0 [some "line".toList, none]
            (fun _ => TurnEnv.mk true (WriteOutcome.fail 0)),
          (tn.2.2.1.length : Int) < 2 ^ 63
          ∧ tn.1.csize + (tn.2.2.1.length : Int) < 2 ^ 63)
      ∧ ¬ p1.csize > p1.rsize)
    ∧ p1.checkfile w0 true = (p1, w0)
    ∧ p1.csize ≤ (p1.flushStep w0 "line".toList (TurnEnv.mk true (WriteOutcome.fail 0))).1.csize
    ∧ (p1.flushStep w0 "line".toList (TurnEnv.mk true (WriteOutcome.fail 0))).1.csize
        = p1.rsize + 1 :=
  have hfit : ∀ tn ∈ p1.turns w0 [some "line".toList, none]
      (fun _ => TurnEnv.mk true (WriteOutcome.fail 0)),
      (tn.2.2.1.length : Int) < 2 ^ 63
      ∧ tn.1.csize + (tn.2.2.1.length : Int) < 2 ^ 63 := by
    intro tn htn
    have htn2 : tn ∈ [(p1, w0, "line".toList, TurnEnv.mk true (WriteOutcome.fail 0))] := htn
    rw [List.mem_singleton] at htn2
    subst htn2
    exact ⟨by decide, by decide⟩
  ⟨⟨by decide, ⟨by decide, by decide⟩, hfit, by decide⟩,
    (((csize_monotone_between_rotations p1 w0 [some "line".toList, none]
        (fun _ => TurnEnv.mk true (WriteOutcome.fail 0)) (by decide)
        ⟨by decide, by decide⟩ hfit).1
        p1 w0 "line".toList (TurnEnv.mk true (WriteOutcome.fail 0))
        (List.mem_cons_self _ _)).1 (by decide)).2.1,
    (((csize_monotone_between_rotations p1 w0 [some "line".toList, none]
        (fun _ => TurnEnv.mk true (WriteOutcome.fail 0)) (by decide)
        ⟨by decide, by decide⟩ hfit).1
        p1 w0 "line".toList (TurnEnv.mk true (WriteOutcome.fail 0))
        (List.mem_cons_self _ _)).1 (by decide)).2.2.2.1,
    ((csize_monotone_between_rotations p1 w0 [some "line".toList, none]
        (fun _ => TurnEnv.mk true (WriteOutcome.fail 0)) (by decide)
        ⟨by decide, by decide⟩ hfit).1
        p1 w0 "line".toList (TurnEnv.mk true (WriteOutcome.fail 0))
        (List.mem_cons_self _ _)).2.2.1 (by decide)⟩


end Slog
